import Mathlib

/-!
Shallow embedding of the worker-assignment estimation engine in
`src/alg/Algorithm.py`, together with theorems settling the frozen claims
about it.

Conventions of the embedding:
* Python floats are modelled as real numbers (`ℝ`).
* Worker ids are strings; a Python `dict` of mutable `FactoryWorkerProfile`
  objects (always keyed by `worker_id` and kept in lockstep with the
  `factory_workers` list) is modelled as a `FactoryModel`: the list of ids
  in list order plus a total map from id and station to the recorded
  observation list.  Looking up an id absent from the dict raises `KeyError`
  in Python; the total map returns the empty observation list instead, which
  is only reachable when the caller has broken the registry/assignment
  lockstep invariant stated in the design.
* A station assignment (`dict` from station 1..6 to ordered worker lists)
  is modelled as a total function `Nat → List WorkerId`, empty outside 1..6.
* The synchronous `cycle_callback` events never mutate state; the embedding
  keeps, in place of the callbacks, the list of recording events of the
  rotation phase and of the gap-filling phase (each event snapshots the
  data the corresponding callback payload carries).
-/

namespace ADA

/-- Worker identifiers (zero-padded strings such as "0001"). -/
abbrev WorkerId := String

/-- An assignment maps each station index (1..6) to its ordered worker list. -/
abbrev Assignment := Nat → List WorkerId

/-- Number of stations (`WSTATION = 6` in `Algorithm.py`). -/
def WSTATION : Nat := 6

/-- Simulation horizon (`SIMULATION_TIME = 8.0`). -/
def SIMULATION_TIME : ℝ := 8.0

/-- The station indices `range(1, WSTATION + 1)` = `[1, 2, 3, 4, 5, 6]`. -/
def stationList : List Nat := (List.range WSTATION).map (· + 1)

/-- Ground-truth worker record (`TrueWorkerProfile` dataclass). -/
structure TrueWorkerProfile where
  worker_id : WorkerId
  skill1 : ℝ
  skill2 : ℝ
  skill3 : ℝ
  skill4 : ℝ
  skill5 : ℝ
  skill6 : ℝ
  fatigue_base : ℝ

/-- Per-station task parameters (`TaskProfile` dataclass). -/
structure TaskProfile where
  station_id : Nat
  delivery_time : ℝ
  fatigue_cost : ℝ

/-- Python `skills[station - 1]` on the six skill fields; out-of-range
stations (an `IndexError` in Python, unreachable at every call site) default
to 0. -/
def TrueWorkerProfile.get_skill (w : TrueWorkerProfile) (station : Nat) : ℝ :=
  [w.skill1, w.skill2, w.skill3, w.skill4, w.skill5, w.skill6].getD (station - 1) 0

/-- Time-averaged energy factor: `k = fatigue_cost / (fatigue_base + 5)`;
returns 1 when `k*T < 0.001`, else `(1 - exp (-k*T)) / (k*T)`.  The Python
default argument `T = SIMULATION_TIME` is the only value ever passed, so the
embedding fixes it. -/
noncomputable def TrueWorkerProfile.calculate_energy_avg
    (w : TrueWorkerProfile) (fatigue_cost : ℝ) : ℝ :=
  let k := fatigue_cost / (w.fatigue_base + 5)
  if k * SIMULATION_TIME < 0.001 then 1.0
  else (1 - Real.exp (-(k * SIMULATION_TIME))) / (k * SIMULATION_TIME)

/-- Oracle performance: `(skill[station] / delivery_time) * energy_avg`. -/
noncomputable def TrueWorkerProfile.calculate_performance
    (w : TrueWorkerProfile) (station : Nat)
    (task_delivery_time task_fatigue_cost : ℝ) : ℝ :=
  (w.get_skill station / task_delivery_time) * w.calculate_energy_avg task_fatigue_cost

/-- The learned model: the `factory_workers` list (ids in list order) plus the
per-worker, per-station observation lists of the `FactoryWorkerProfile`
objects it contains. -/
structure FactoryModel where
  ids : List WorkerId
  perfs : WorkerId → Nat → List ℝ

/-- `FactoryWorkerProfile.record_performance_percentage`: append an
observation to the `(worker, station)` list. -/
def FactoryModel.record_performance_percentage
    (m : FactoryModel) (w : WorkerId) (s : Nat) (v : ℝ) : FactoryModel :=
  { m with perfs := fun w' s' => if w' = w ∧ s' = s then m.perfs w s ++ [v] else m.perfs w' s' }

/-- `FactoryWorkerProfile.get_average_percentage`: 0 when no data, else the
mean of the recorded observations. -/
noncomputable def FactoryModel.get_average_percentage
    (m : FactoryModel) (w : WorkerId) (s : Nat) : ℝ :=
  let l := m.perfs w s
  if l.isEmpty then 0.0 else l.sum / (l.length : ℝ)

/-- `FactoryWorkerProfile.has_data_for_station`: the observation list for the
pair is nonempty. -/
def FactoryModel.has_data_for_station (m : FactoryModel) (w : WorkerId) (s : Nat) : Bool :=
  !(m.perfs w s).isEmpty

/-- `FactoryWorkerProfile.get_data_completeness`: percentage of the six
stations having at least one observation (exact rational arithmetic; the
Python float computation decides `< 100` identically). -/
def FactoryModel.get_data_completeness (m : FactoryModel) (w : WorkerId) : ℚ :=
  ((stationList.filter (fun s => m.has_data_for_station w s)).length : ℚ)
    / (WSTATION : ℚ) * 100

/-- The assignment dict `{station: [] for station in range(1, WSTATION + 1)}`. -/
def emptyAssignment : Assignment := fun _ => []

/-- Python `assignment[station].append(worker_id)`. -/
def assignAppend (a : Assignment) (s : Nat) (w : WorkerId) : Assignment :=
  fun t => if t = s then a t ++ [w] else a t

/-- Python `assignment[station][position_idx] = worker`. -/
def assignSet (a : Assignment) (s : Nat) (p : Nat) (w : WorkerId) : Assignment :=
  fun t => if t = s then (a t).set p w else a t

/-- Round-robin distribution loop shared by
`create_initial_assignment_sequential` and the rebuild step of
`fire_worker_from_assignment`: worker at index `idx` is appended to station
`idx % WSTATION + 1`. -/
def distributeSequential (worker_ids : List WorkerId) : Assignment :=
  worker_ids.enum.foldl (fun a p => assignAppend a (p.1 % WSTATION + 1) p.2) emptyAssignment

/-- `create_initial_assignment_sequential`. -/
def create_initial_assignment_sequential (worker_ids : List WorkerId) : Assignment :=
  distributeSequential worker_ids

/-- Station-ascending, within-station concatenation of an assignment (the
order in which `fire_worker_from_assignment` collects remaining workers). -/
def canonicalOrder (a : Assignment) : List WorkerId :=
  (stationList.map a).flatten

/-- `fire_worker_from_assignment`: collect all workers other than the fired
one in station-ascending, within-station order, then redistribute them
round-robin. -/
def fire_worker_from_assignment (worker_id : WorkerId) (a : Assignment) : Assignment :=
  let all_workers := (stationList.map (fun s => (a s).filter (fun wid => wid != worker_id))).flatten
  all_workers.enum.foldl (fun b p => assignAppend b (p.1 % WSTATION + 1) p.2) emptyAssignment

/-- Lookup of `task_dict[station_id]` (the task list always carries exactly
one task per station; a missing station is a `KeyError` in Python and
defaults to a junk task here). -/
def task_for (tasks : List TaskProfile) (s : Nat) : TaskProfile :=
  (tasks.find? (fun t => t.station_id == s)).getD { station_id := s, delivery_time := 1, fatigue_cost := 0 }

/-- `simulate_station_performance`: per-station sum of oracle performances of
the workers currently in the station; ids with no `TrueWorkerProfile`
contribute zero. -/
noncomputable def simulate_station_performance
    (true_workers : List TrueWorkerProfile) (tasks : List TaskProfile)
    (assignment : Assignment) : Nat → ℝ :=
  fun station_id =>
    ((assignment station_id).map (fun wid =>
      match true_workers.find? (fun t => t.worker_id == wid) with
      | some tw => tw.calculate_performance station_id
          (task_for tasks station_id).delivery_time (task_for tasks station_id).fatigue_cost
      | none => 0)).sum

/-- Greedy selection loop of `optimize_position`: scan `position_workers`,
skip ids already placed this call, keep the strictly best score seen so far
(`best_score` starts at `-inf`, so the first unassigned candidate is always
taken; ties keep the earlier candidate). -/
noncomputable def chooseBest (m : FactoryModel) (station : Nat)
    (position_workers assigned : List WorkerId) : Option (WorkerId × ℝ) :=
  position_workers.foldl (fun best wid =>
    if wid ∈ assigned then best
    else
      match best with
      | none => some (wid, m.get_average_percentage wid station)
      | some (bw, bs) =>
          if m.get_average_percentage wid station > bs then
            some (wid, m.get_average_percentage wid station)
          else some (bw, bs)) none

/-- `optimize_position`: for each station having position `position_idx` (in
ascending station order), place the best-scoring not-yet-used cohort worker at
that position.  Python's `if best_worker:` treats the empty string (and
`None`) as falsy, in which case the station is left unchanged and no worker is
marked used. -/
noncomputable def optimize_position (m : FactoryModel) (current_assignment : Assignment)
    (position_idx : Nat) : Assignment × List (Nat × WorkerId × WorkerId × ℝ) :=
  let position_workers := stationList.filterMap (fun s =>
    if position_idx < (current_assignment s).length then
      some ((current_assignment s).getD position_idx "")
    else none)
  let stations_with_position := stationList.filter
    (fun s => position_idx < (current_assignment s).length)
  if position_workers.isEmpty then (current_assignment, [])
  else
    let final := stations_with_position.foldl (fun st s =>
      let best := chooseBest m s position_workers st.2.1
      match best with
      | some (bw, bs) =>
          if bw ≠ "" then
            (assignSet st.1 s position_idx bw, (st.2.1 ++ [bw],
              st.2.2 ++ [(s, (st.1 s).getD position_idx "", bw, bs)]))
          else st
      | none => st) (current_assignment, ([], []))
    (final.1, final.2.2)

/-- `check_position_needs_testing`: some station has a worker at this position
who is a known factory worker with incomplete data. -/
def check_position_needs_testing (m : FactoryModel) (assignment : Assignment)
    (position_idx : Nat) : Bool :=
  stationList.any (fun s =>
    decide (position_idx < (assignment s).length) &&
      (let wid := (assignment s).getD position_idx ""
       m.ids.contains wid && decide (m.get_data_completeness wid < 100)))

/-- Base phase of `systematic_data_collection_ui` (lines 299-302): every known
factory worker occupying a station in the initial assignment gets a 100.0
observation recorded for that station. -/
def basePhase (initial_assign : Assignment) (m : FactoryModel) : FactoryModel :=
  stationList.foldl (fun m1 s =>
    (initial_assign s).foldl (fun m2 w =>
      if m2.ids.contains w then m2.record_performance_percentage w s 100.0 else m2) m1) m

/-- Snapshot of one rotation-phase recording (the data the `rotation`
callback payload carries for one recorded station): the position and
rotation indices, the probed station and rotated worker, the temporary
assignment, the learned model as it stood when the adjustment was computed,
and the recorded (adjusted) percentage. -/
structure RotEvent where
  position_idx : Nat
  station_id : Nat
  worker : WorkerId
  temp : Assignment
  msnap : FactoryModel
  value : ℝ

/-- Confound adjustment of the rotation phase (lines 366-374): over the
positions of the probed station in the temporary assignment, positions other
than the probed one whose occupant exists in and differs from the original
assignment contribute `learned average - 100`. -/
noncomputable def rotationAdjustment (m : FactoryModel) (original_assignment : Assignment)
    (temp : Assignment) (station_id : Nat) (position_idx : Nat) : ℝ :=
  ((temp station_id).enum.map (fun pr =>
    if pr.1 ≠ position_idx ∧ pr.1 < (original_assignment station_id).length ∧
        pr.2 ≠ (original_assignment station_id).getD pr.1 "" then
      m.get_average_percentage pr.2 station_id - 100.0
    else 0)).sum

/-- One station's recording inside a rotation (lines 355-386): compute the raw
percentage against the frozen base, skip if the rotated worker already has
data for this station, else record `raw - adjustment` and emit an event. -/
noncomputable def recordStep (original_assignment : Assignment) (basePerf : Nat → ℝ)
    (temp : Assignment) (currentPerf : Nat → ℝ) (position_idx : Nat)
    (st : FactoryModel × List RotEvent) (pr : Nat × WorkerId) :
    FactoryModel × List RotEvent :=
  let m := st.1
  let station_id := pr.1
  let swapped_worker := pr.2
  let raw_percentage :=
    if basePerf station_id ≠ 0 then currentPerf station_id / basePerf station_id * 100 else 100.0
  if m.has_data_for_station swapped_worker station_id then st
  else
    let adjustment := rotationAdjustment m original_assignment temp station_id position_idx
    let adjusted_percentage := raw_percentage - adjustment
    (m.record_performance_percentage swapped_worker station_id adjusted_percentage,
      st.2 ++ [{ position_idx := position_idx, station_id := station_id,
                 worker := swapped_worker, temp := temp, msnap := m,
                 value := adjusted_percentage }])

/-- One rotation `r` of the cohort at `position_idx` (lines 346-399): write the
cyclically rotated cohort into the temporary assignment, recompute station
totals, and run the recording step for each cohort station. -/
noncomputable def rotationStep (true_workers : List TrueWorkerProfile)
    (tasks : List TaskProfile) (original_assignment : Assignment) (basePerf : Nat → ℝ)
    (source_stations : List Nat) (workers_to_rotate : List WorkerId) (position_idx : Nat)
    (st : Assignment × FactoryModel × List RotEvent) (r : Nat) :
    Assignment × FactoryModel × List RotEvent :=
  let temp := st.1
  let rotated_workers := workers_to_rotate.drop r ++ workers_to_rotate.take r
  let temp' := (source_stations.zip rotated_workers).foldl
    (fun t pr => assignSet t pr.1 position_idx pr.2) temp
  let current_performance := simulate_station_performance true_workers tasks temp'
  let res := (source_stations.zip rotated_workers).foldl
    (recordStep original_assignment basePerf temp' current_performance position_idx)
    (st.2.1, st.2.2)
  (temp', res.1, res.2)

/-- Body of the position loop of `systematic_data_collection_ui` (lines
320-414): skip fully-known positions, otherwise rotate the cohort read from
the original assignment through all cyclic offsets, then (except after the
last position) greedily re-optimize the current assignment at this position. -/
noncomputable def positionStep (true_workers : List TrueWorkerProfile)
    (tasks : List TaskProfile) (original_assignment : Assignment) (basePerf : Nat → ℝ)
    (max_workers_per_station : Nat)
    (st : Assignment × FactoryModel × List RotEvent) (position_idx : Nat) :
    Assignment × FactoryModel × List RotEvent :=
  let current_assignment := st.1
  let m := st.2.1
  if !check_position_needs_testing m original_assignment position_idx then st
  else
    let source_stations := stationList.filter
      (fun s => position_idx < (original_assignment s).length)
    let workers_to_rotate := source_stations.map
      (fun s => (original_assignment s).getD position_idx "")
    if workers_to_rotate.isEmpty then st
    else
      let res := (List.range workers_to_rotate.length).foldl
        (rotationStep true_workers tasks original_assignment basePerf
          source_stations workers_to_rotate position_idx)
        (current_assignment, m, st.2.2)
      if position_idx < max_workers_per_station - 1 then
        let opt := optimize_position res.2.1 current_assignment position_idx
        (opt.1, res.2.1, res.2.2)
      else (current_assignment, res.2.1, res.2.2)

/-- Snapshot of one gap-filler probe (the data the `incomplete_fix` callback
payload carries): the probed worker and target station, the per-probe
temporary assignment, and the recorded percentage. -/
structure GapEvent where
  worker_id : WorkerId
  test_station : Nat
  temp : Assignment
  value : ℝ

/-- The per-probe temporary assignment of the gap filler (lines 456-464):
remove the worker from its current station (when known and present) and
insert it at its current position index in the target station, appending when
that index is out of range. -/
def gapProbeTemp (a : Assignment) (current_station : Option Nat)
    (current_position : Option Nat) (worker_id : WorkerId) (test_station : Nat) :
    Assignment :=
  let t1 : Assignment :=
    match current_station with
    | some cs => if worker_id ∈ a cs then (fun u => if u = cs then (a u).erase worker_id else a u) else a
    | none => a
  match current_position with
  | some cp =>
      if cp < (t1 test_station).length then
        fun u => if u = test_station then (t1 u).insertIdx cp worker_id else t1 u
      else fun u => if u = test_station then t1 u ++ [worker_id] else t1 u
  | none => fun u => if u = test_station then t1 u ++ [worker_id] else t1 u

/-- Processing of one incomplete worker by the gap filler (lines 443-497):
for each station still missing data, build the per-probe temporary
assignment, compute the isolated percentage against the frozen entry base,
record it, and emit an event. -/
noncomputable def gapWorker (true_workers : List TrueWorkerProfile)
    (tasks : List TaskProfile) (current_assignment : Assignment) (basePerf : Nat → ℝ)
    (st : FactoryModel × List GapEvent) (worker_id : WorkerId) :
    FactoryModel × List GapEvent :=
  let m := st.1
  let missing_stations := stationList.filter (fun s => !m.has_data_for_station worker_id s)
  let current_station := stationList.find? (fun s => worker_id ∈ current_assignment s)
  let current_position := current_station.map (fun s => (current_assignment s).indexOf worker_id)
  missing_stations.foldl (fun st2 test_station =>
    let temp := gapProbeTemp current_assignment current_station current_position
      worker_id test_station
    let individual_performance :=
      match true_workers.find? (fun t => t.worker_id == worker_id) with
      | some tw => tw.calculate_performance test_station
          (tasks.getD (test_station - 1) { station_id := test_station, delivery_time := 1, fatigue_cost := 0 }).delivery_time
          (tasks.getD (test_station - 1) { station_id := test_station, delivery_time := 1, fatigue_cost := 0 }).fatigue_cost
      | none => 0
    let percentage :=
      if basePerf test_station > 0 then
        individual_performance / basePerf test_station * 100 + 100
      else 100.0
    (st2.1.record_performance_percentage worker_id test_station percentage,
      st2.2 ++ [{ worker_id := worker_id, test_station := test_station,
                  temp := temp, value := percentage }])) (m, st.2)

/-- `collect_incomplete_worker_data_ui`: probe every missing worker-station
pair, recording into the learned model; the base station totals are computed
once from the entry assignment, and the returned assignment is the entry
assignment. -/
noncomputable def collect_incomplete_worker_data_ui
    (true_workers : List TrueWorkerProfile) (tasks : List TaskProfile)
    (current_assignment : Assignment) (m : FactoryModel) :
    Assignment × FactoryModel × List GapEvent :=
  let workers_to_process := m.ids.filter (fun w => decide (m.get_data_completeness w < 100))
  if workers_to_process.isEmpty then (current_assignment, m, [])
  else
    let basePerf := simulate_station_performance true_workers tasks current_assignment
    let res := workers_to_process.foldl
      (gapWorker true_workers tasks current_assignment basePerf) (m, [])
    (current_assignment, res.1, res.2)

/-- `systematic_data_collection_ui`: record the 100% baseline, run the
rotation rounds over all position indices (with the per-position greedy
re-optimization), then gap-fill any remaining incompleteness.  Returns the
final current assignment, the final learned model, and the rotation-phase and
gap-phase recording events. -/
noncomputable def systematic_data_collection_ui
    (true_workers : List TrueWorkerProfile) (tasks : List TaskProfile)
    (initial_assign : Assignment) (m : FactoryModel) :
    Assignment × FactoryModel × List RotEvent × List GapEvent :=
  let base_performance := simulate_station_performance true_workers tasks initial_assign
  let m1 := basePhase initial_assign m
  let original_assignment := initial_assign
  let max_workers_per_station := (stationList.map (fun s => (initial_assign s).length)).foldl max 0
  let res := (List.range max_workers_per_station).foldl
    (positionStep true_workers tasks original_assignment base_performance
      max_workers_per_station)
    (initial_assign, m1, [])
  let incomplete_workers := res.2.1.ids.filter
    (fun w => decide (res.2.1.get_data_completeness w < 100))
  if incomplete_workers.isEmpty then (res.1, res.2.1, res.2.2, [])
  else
    let fin := collect_incomplete_worker_data_ui true_workers tasks res.1 res.2.1
    (fin.1, fin.2.1, res.2.2, fin.2.2)

/-- Per-station quota of the final solver (lines 519-524): `base + 1` for the
first `num_workers mod 6` stations, `base` for the rest. -/
def workers_needed_per_station (num_workers : Nat) : Nat → Nat :=
  fun station =>
    num_workers / WSTATION + (if station ≤ num_workers % WSTATION then 1 else 0)

/-- The report record returned by `find_optimal_assignment`. -/
structure OptimalResults where
  assignment : Assignment
  worker_station_scores : WorkerId → Nat → ℝ
  total_performance : ℝ
  average_performance : ℝ
  station_details : Nat → List WorkerId × ℝ × Nat
  best_workers : List (WorkerId × Nat × ℝ)
  worst_workers : List (WorkerId × Nat × ℝ)

/-- `find_optimal_assignment`: build the score table from learned averages,
compute per-station quotas, greedily fill positions (least-loaded stations
pick first, each picking its best unassigned worker, ties to the earlier
worker in registry order via the stable sort), and derive the report.  The
`assignment` parameter is accepted but never read. -/
noncomputable def find_optimal_assignment (m : FactoryModel) (num_workers : Nat)
    (assignment : Assignment) : Assignment × OptimalResults :=
  let worker_station_scores : WorkerId → Nat → ℝ :=
    fun wid station => m.get_average_percentage wid station
  let needed := workers_needed_per_station num_workers
  let max_workers_any_station := (stationList.map needed).foldl max 0
  let final := (List.range max_workers_any_station).foldl
    (fun (st : Assignment × List WorkerId) _ =>
      let optimal := st.1
      let station_totals : Nat → ℝ := fun s =>
        ((optimal s).map (fun wid => worker_station_scores wid s)).sum
      let stations_needing_worker := stationList.filter
        (fun s => (optimal s).length < needed s)
      let sorted_stations := stations_needing_worker.mergeSort
        (fun s t => decide (station_totals s ≤ station_totals t))
      sorted_stations.foldl (fun st2 station =>
        let available := (m.ids.filter (fun wid => !st2.2.contains wid)).map
          (fun wid => (wid, worker_station_scores wid station))
        match available.mergeSort (fun x y => decide (y.2 ≤ x.2)) with
        | [] => st2
        | (best_worker_id, _) :: _ =>
            (assignAppend st2.1 station best_worker_id, st2.2 ++ [best_worker_id])
        ) (optimal, st.2)
    ) (emptyAssignment, ([] : List WorkerId))
  let optimal_assignment := final.1
  let total_expected_performance :=
    (stationList.map (fun s =>
      ((optimal_assignment s).map (fun wid => worker_station_scores wid s)).sum)).sum
  let total_workers := (stationList.map (fun s => (optimal_assignment s).length)).sum
  let avg_performance :=
    if 0 < total_workers then total_expected_performance / (total_workers : ℝ) else 0
  let worker_efficiencies :=
    (stationList.map (fun s => (optimal_assignment s).map
      (fun wid => (wid, s, worker_station_scores wid s)))).flatten
  let sorted_eff := worker_efficiencies.mergeSort (fun x y => decide (y.2.2 ≤ x.2.2))
  (optimal_assignment,
    { assignment := optimal_assignment
      worker_station_scores := worker_station_scores
      total_performance := total_expected_performance
      average_performance := avg_performance
      station_details := fun s =>
        ((optimal_assignment s),
          ((optimal_assignment s).map (fun wid => worker_station_scores wid s)).sum,
          (optimal_assignment s).length)
      best_workers := sorted_eff.take 3
      worst_workers := sorted_eff.drop (sorted_eff.length - 3) })

/-- A concrete ground-truth worker used to instantiate hypotheses of proved
theorems at explicit inputs. -/
def sampleTrueWorker : TrueWorkerProfile :=
  { worker_id := "0001", skill1 := 1, skill2 := 1, skill3 := 1, skill4 := 1,
    skill5 := 1, skill6 := 1, fatigue_base := 1 }

/-- Raw-percentage formula following the wording of the spec (§4.2 step 5):
`currentTotal / basePerformance * 100`, or 100 if the base is zero.  Stated
independently of the collector so that the collector's recorded values can be
compared against it. -/
noncomputable def rawPercentageSpec (base curr : ℝ) : ℝ :=
  if base = 0 then 100.0 else curr / base * 100

/-- Adjustment formula following the wording of the spec (§4.2 step 5): sum
over positions `q ≠ p` of the probed station of `learnedAvg(occupant) - 100`,
counted only when the occupant at `q` in the temporary assignment exists in
and differs from the occupant at `q` in the original assignment. -/
noncomputable def adjustmentSpec (m : FactoryModel) (original_assignment : Assignment)
    (temp : Assignment) (station_id : Nat) (position_idx : Nat) : ℝ :=
  ((temp station_id).enum.map (fun pr =>
    match (original_assignment station_id)[pr.1]? with
    | some ow =>
        if pr.1 ≠ position_idx ∧ pr.2 ≠ ow then
          m.get_average_percentage pr.2 station_id - 100.0
        else 0
    | none => 0)).sum

/-- Isolated-probe percentage formula following the wording of the spec
(§4.4): `individualPerformance / base * 100 + 100`, or 100 flat when the base
is zero. -/
noncomputable def gapPercentageSpec (base individual_performance : ℝ) : ℝ :=
  if base = 0 then 100.0 else individual_performance / base * 100 + 100

/-- Oracle performance of a worker id at a station, via the positional task
lookup `tasks[test_station - 1]` the gap filler uses; ids with no
`TrueWorkerProfile` (a `KeyError` in Python) default to 0. -/
noncomputable def truePerfOf (true_workers : List TrueWorkerProfile)
    (tasks : List TaskProfile) (worker_id : WorkerId) (test_station : Nat) : ℝ :=
  match true_workers.find? (fun t => t.worker_id == worker_id) with
  | some tw => tw.calculate_performance test_station
      (tasks.getD (test_station - 1) { station_id := test_station, delivery_time := 1, fatigue_cost := 0 }).delivery_time
      (tasks.getD (test_station - 1) { station_id := test_station, delivery_time := 1, fatigue_cost := 0 }).fatigue_cost
  | none => 0

/-- Correctness of one rotation-phase recording with respect to the spec's
formulas: the recorded value is the raw percentage of the event's temporary
assignment against the frozen initial-assignment base, minus the adjustment
computed from the learned model as it stood at recording time. -/
def rotEventOk (true_workers : List TrueWorkerProfile)
    (tasks : List TaskProfile) (initial_assign : Assignment) (ev : RotEvent) : Prop :=
  ev.value
    = rawPercentageSpec
        (simulate_station_performance true_workers tasks initial_assign ev.station_id)
        (simulate_station_performance true_workers tasks ev.temp ev.station_id)
      - adjustmentSpec ev.msnap initial_assign ev.temp ev.station_id ev.position_idx

/-- Correctness of one gap-filler recording with respect to the spec's
formula, relative to the station totals of the assignment frozen at
gap-filler entry: on a positive base the recorded value is
`individualPerformance / base * 100 + 100`, and on a zero base it is 100
flat. -/
def gapEventOk (true_workers : List TrueWorkerProfile)
    (tasks : List TaskProfile) (entry_assignment : Assignment) (ev : GapEvent) : Prop :=
  (0 < simulate_station_performance true_workers tasks entry_assignment ev.test_station →
    ev.value = truePerfOf true_workers tasks ev.worker_id ev.test_station
        / simulate_station_performance true_workers tasks entry_assignment ev.test_station
        * 100 + 100) ∧
  (simulate_station_performance true_workers tasks entry_assignment ev.test_station = 0 →
    ev.value = 100)

/-- All observation lists of worker `w` have at most one entry. -/
def PairCountsLe1 (mm : FactoryModel) (w : WorkerId) : Prop :=
  ∀ s, (mm.perfs w s).length ≤ 1

/-- Rotation-phase recording discipline: every worker-station pair has at
most one recording event, and a pair that has an event already has data in
the learned model (so the skip-if-present guard will never record it
again). -/
def RotRecordedOnce (mm : FactoryModel) (evs : List RotEvent) : Prop :=
  ∀ w' s',
    ((evs.filter (fun e => decide (e.worker = w' ∧ e.station_id = s'))).length ≤ 1) ∧
    (1 ≤ (evs.filter (fun e => decide (e.worker = w' ∧ e.station_id = s'))).length →
      mm.has_data_for_station w' s' = true)

/-! ## Basic lemmas about the embedding -/

theorem stationList_eq : stationList = [1, 2, 3, 4, 5, 6] := by decide

theorem assignAppend_apply (a : Assignment) (s : Nat) (w : WorkerId) (t : Nat) :
    assignAppend a s w t = if t = s then a t ++ [w] else a t := rfl

/-- Closed form of the round-robin redistribution loop: station `s` receives,
appended to whatever the accumulator already held, exactly the workers whose
index maps to `s`, in index order. -/
theorem foldlAppend_apply (l : List (Nat × WorkerId)) (a : Assignment) (s : Nat) :
    (l.foldl (fun b p => assignAppend b (p.1 % WSTATION + 1) p.2) a) s
      = a s ++ (l.filter (fun p => p.1 % WSTATION + 1 == s)).map Prod.snd := by
  induction l generalizing a with
  | nil => simp
  | cons p l ih =>
      rw [List.foldl_cons, ih, List.filter_cons]
      by_cases h : p.1 % WSTATION + 1 = s
      · simp [assignAppend_apply, h]
      · have hb : (p.1 % WSTATION + 1 == s) = false := by
          simp [h]
        simp [assignAppend_apply, hb]
        omega

theorem distributeSequential_apply (worker_ids : List WorkerId) (s : Nat) :
    distributeSequential worker_ids s
      = (worker_ids.enum.filter (fun p => p.1 % WSTATION + 1 == s)).map Prod.snd := by
  unfold distributeSequential
  rw [foldlAppend_apply]
  rfl

/-- Number of indices below `n` hitting residue class `s - 1` modulo 6. -/
theorem countP_range_mod (n : Nat) (s : Nat) :
    (List.range n).countP (fun i => i % WSTATION + 1 == s)
      = if 1 ≤ s ∧ s ≤ WSTATION then n / WSTATION + (if s - 1 < n % WSTATION then 1 else 0)
        else 0 := by
  induction n with
  | zero =>
      simp
  | succ n ih =>
      rw [List.range_succ, List.countP_append, ih]
      simp only [List.countP_cons, List.countP_nil, WSTATION, beq_iff_eq]
      split_ifs <;> omega

theorem length_station_distributeSequential (worker_ids : List WorkerId) (s : Nat) :
    (distributeSequential worker_ids s).length
      = if 1 ≤ s ∧ s ≤ WSTATION then
          worker_ids.length / WSTATION +
            (if s - 1 < worker_ids.length % WSTATION then 1 else 0)
        else 0 := by
  rw [distributeSequential_apply, List.length_map, ← List.countP_eq_length_filter]
  have hmap : worker_ids.enum.map Prod.fst = List.range worker_ids.length :=
    List.enum_map_fst worker_ids
  calc worker_ids.enum.countP (fun p => p.1 % WSTATION + 1 == s)
      = (worker_ids.enum.map Prod.fst).countP (fun i => i % WSTATION + 1 == s) := by
        rw [List.countP_map]; rfl
    _ = (List.range worker_ids.length).countP (fun i => i % WSTATION + 1 == s) := by
        rw [hmap]
    _ = _ := countP_range_mod worker_ids.length s

/-- The redistribution loop places every worker: the six stations' lengths
sum back to the input length. -/
theorem length_canonicalOrder_distributeSequential (worker_ids : List WorkerId) :
    (canonicalOrder (distributeSequential worker_ids)).length = worker_ids.length := by
  unfold canonicalOrder
  rw [List.length_flatten, stationList_eq]
  simp only [List.map_cons, List.map_nil, List.map_map, Function.comp,
    length_station_distributeSequential]
  simp only [List.sum_cons, List.sum_nil]
  have h6 : WSTATION = 6 := rfl
  rw [h6]
  norm_num
  split_ifs <;> omega

/-- Generic preservation of a state predicate along a left fold; used to
carry invariants through the collector's loops. -/
theorem foldl_preserves {σ α : Type _} (P : σ → Prop) (f : σ → α → σ)
    (hstep : ∀ st x, P st → P (f st x)) :
    ∀ (l : List α) (st : σ), P st → P (l.foldl f st) := by
  intro l
  induction l with
  | nil => intro st h; exact h
  | cons x l ih => intro st h; exact ih (f st x) (hstep st x h)

/-! ## Claim theorems -/

/-- Claim C2: `find_optimal_assignment` never reads its `assignment`
argument, so for a fixed learned model and worker count, any two assignment
arguments yield the identical optimal assignment and the identical results
report. -/
theorem claim_C2_solver_ignores_assignment (m : FactoryModel) (num_workers : Nat)
    (a1 a2 : Assignment) :
    find_optimal_assignment m num_workers a1 = find_optimal_assignment m num_workers a2 :=
  rfl

/-- Claim C7: for every worker count, the solver's per-station quotas are
`base = N / 6` plus one extra for station `i` iff `i ≤ N mod 6` (1-based);
they sum exactly to `N`, and exactly `N mod 6` stations receive one extra
worker over the floor. -/
theorem claim_C7_quota_distribution (num_workers : Nat) :
    (stationList.map (workers_needed_per_station num_workers)).sum = num_workers ∧
    (stationList.filter (fun s =>
        workers_needed_per_station num_workers s == num_workers / WSTATION + 1)).length
      = num_workers % WSTATION ∧
    ∀ s ∈ stationList, workers_needed_per_station num_workers s
      = num_workers / WSTATION + (if s ≤ num_workers % WSTATION then 1 else 0) := by
  refine ⟨?_, ?_, fun s _ => rfl⟩
  · have h6 : (6 : Nat) = WSTATION := rfl
    rw [stationList_eq]
    simp only [List.map_cons, List.map_nil, List.sum_cons, List.sum_nil,
      workers_needed_per_station, WSTATION]
    have := Nat.div_add_mod num_workers 6
    split_ifs <;> omega
  · rw [stationList_eq, ← List.countP_eq_length_filter]
    simp only [List.countP_cons, List.countP_nil, workers_needed_per_station,
      WSTATION, beq_iff_eq]
    have h : num_workers % 6 < 6 := Nat.mod_lt _ (by norm_num)
    split_ifs <;> omega

/-- Witness for C7 at `N = 20`: quotas sum to 20 and station 1 (1 ≤ 20 mod 6)
receives the extra worker. -/
theorem claim_C7_quota_distribution_witness :
    (stationList.map (workers_needed_per_station 20)).sum = 20 ∧
    workers_needed_per_station 20 1 = 20 / WSTATION + (if 1 ≤ 20 % WSTATION then 1 else 0) :=
  ⟨(claim_C7_quota_distribution 20).1,
    (claim_C7_quota_distribution 20).2.2 1 (by decide)⟩

/-- Claim C9: the gap filler's moves are temporary — it returns exactly the
assignment it was given, and every probe's modified assignment exists only in
the emitted event, where it equals the per-probe modification of the entry
assignment (worker removed from its current station, inserted at its current
position in the target station). -/
theorem claim_C9_gap_filler_frame (true_workers : List TrueWorkerProfile)
    (tasks : List TaskProfile) (a : Assignment) (m : FactoryModel) :
    (collect_incomplete_worker_data_ui true_workers tasks a m).1 = a ∧
    (collect_incomplete_worker_data_ui true_workers tasks a m).2.2.Forall (fun ev =>
      ev.temp = gapProbeTemp a (stationList.find? (fun s => ev.worker_id ∈ a s))
        ((stationList.find? (fun s => ev.worker_id ∈ a s)).map
          (fun s => (a s).indexOf ev.worker_id))
        ev.worker_id ev.test_station) := by
  constructor
  · unfold collect_incomplete_worker_data_ui
    dsimp only
    split <;> rfl
  · rw [List.forall_iff_forall_mem]
    unfold collect_incomplete_worker_data_ui
    dsimp only
    split
    · intro ev hev; exact absurd hev (List.not_mem_nil ev)
    · have key : ∀ (l : List WorkerId) (st : FactoryModel × List GapEvent),
          (∀ ev ∈ st.2, ev.temp = gapProbeTemp a
              (stationList.find? (fun s => ev.worker_id ∈ a s))
              ((stationList.find? (fun s => ev.worker_id ∈ a s)).map
                (fun s => (a s).indexOf ev.worker_id))
              ev.worker_id ev.test_station) →
          ∀ ev ∈ (l.foldl (gapWorker true_workers tasks a
              (simulate_station_performance true_workers tasks a)) st).2,
            ev.temp = gapProbeTemp a
              (stationList.find? (fun s => ev.worker_id ∈ a s))
              ((stationList.find? (fun s => ev.worker_id ∈ a s)).map
                (fun s => (a s).indexOf ev.worker_id))
              ev.worker_id ev.test_station := by
        intro l st hst
        refine foldl_preserves (fun (st : FactoryModel × List GapEvent) =>
          ∀ ev ∈ st.2, ev.temp = gapProbeTemp a
              (stationList.find? (fun s => ev.worker_id ∈ a s))
              ((stationList.find? (fun s => ev.worker_id ∈ a s)).map
                (fun s => (a s).indexOf ev.worker_id))
              ev.worker_id ev.test_station) _ ?_ l st hst
        intro st w hst2
        unfold gapWorker
        dsimp only
        refine foldl_preserves (fun (st2 : FactoryModel × List GapEvent) =>
          ∀ ev ∈ st2.2, ev.temp = gapProbeTemp a
              (stationList.find? (fun s => ev.worker_id ∈ a s))
              ((stationList.find? (fun s => ev.worker_id ∈ a s)).map
                (fun s => (a s).indexOf ev.worker_id))
              ev.worker_id ev.test_station) _ ?_ _ (st.1, st.2) hst2
        intro st2 ts h2 ev hev
        rcases List.mem_append.mp hev with h | h
        · exact h2 ev h
        · rcases List.mem_singleton.mp h with rfl
          rfl
      exact key _ (m, []) (by intro ev h; exact absurd h (List.not_mem_nil ev))

theorem mem_stationList_iff {s : Nat} : s ∈ stationList ↔ 1 ≤ s ∧ s ≤ WSTATION := by
  rw [stationList_eq]
  simp [WSTATION]
  omega

/-- Counterexample to claim C3 as stated: with 7 hires, concatenating the
stations of the round-robin initial assignment in ascending station order
does not reproduce the hire order (station 1 holds workers 1 and 7, so the
concatenation starts "1", "7"). -/
theorem claim_C3_counterexample :
    ¬ (canonicalOrder (create_initial_assignment_sequential
          ["1", "2", "3", "4", "5", "6", "7"]) = ["1", "2", "3", "4", "5", "6", "7"]) := by
  decide

/-- Claim C3 as amended: the round-robin initial assignment always balances
station counts to within 1 of each other, and the station-ascending
concatenation reproduces the hire order when there are at most `WSTATION`
workers (with more workers it is a round-robin interleaving instead). -/
theorem claim_C3_amended (worker_ids : List WorkerId) :
    (∀ s ∈ stationList, ∀ t ∈ stationList,
      (create_initial_assignment_sequential worker_ids s).length
        ≤ (create_initial_assignment_sequential worker_ids t).length + 1) ∧
    (worker_ids.length ≤ WSTATION →
      canonicalOrder (create_initial_assignment_sequential worker_ids) = worker_ids) := by
  constructor
  · intro s hs t ht
    obtain ⟨hs1, hs2⟩ := mem_stationList_iff.mp hs
    obtain ⟨ht1, ht2⟩ := mem_stationList_iff.mp ht
    unfold create_initial_assignment_sequential
    rw [length_station_distributeSequential, length_station_distributeSequential]
    split_ifs <;> omega
  · intro h
    rcases worker_ids with _ | ⟨a, _ | ⟨b, _ | ⟨c, _ | ⟨d, _ | ⟨e, _ | ⟨f, _ | ⟨g, rest⟩⟩⟩⟩⟩⟩⟩
    · rfl
    · rfl
    · rfl
    · rfl
    · rfl
    · rfl
    · rfl
    · simp [WSTATION] at h

/-- Witness for the amended C3 at a three-worker hire list. -/
theorem claim_C3_amended_witness :
    ((create_initial_assignment_sequential ["a", "b", "c"] 1).length
        ≤ (create_initial_assignment_sequential ["a", "b", "c"] 2).length + 1) ∧
    canonicalOrder (create_initial_assignment_sequential ["a", "b", "c"]) = ["a", "b", "c"] :=
  ⟨(claim_C3_amended ["a", "b", "c"]).1 1 (by decide) 2 (by decide),
    (claim_C3_amended ["a", "b", "c"]).2 (by decide)⟩

/-- The fire operation equals round-robin redistribution of the pre-fire
station-ascending, within-station worker order with the fired id dropped. -/
theorem fire_eq_redistribute (worker_id : WorkerId) (a : Assignment) :
    fire_worker_from_assignment worker_id a
      = distributeSequential ((canonicalOrder a).filter (fun wid => wid != worker_id)) := by
  unfold fire_worker_from_assignment distributeSequential canonicalOrder
  rw [List.filter_flatten, List.map_map]
  rfl

theorem length_filter_ne (l : List WorkerId) (x : WorkerId) :
    (l.filter (fun wid => wid != x)).length = l.length - l.count x := by
  induction l with
  | nil => rfl
  | cons y l ih =>
      have hcl := List.count_le_length x l
      rw [List.filter_cons]
      by_cases h : y = x
      · subst h
        simp only [bne_self_eq_false, Bool.false_eq_true, if_false,
          List.length_cons, List.count_cons_self, ih]
        omega
      · have hb : (y != x) = true := by simp [h]
        simp only [hb, if_true, List.length_cons, ih,
          List.count_cons_of_ne (fun hxy : x = y => h hxy.symm)]
        omega

/-- Counterexample to claim C4 as stated: firing worker "1" from the
round-robin assignment of 8 workers does not preserve the station-ascending,
within-station relative order of the 7 remaining workers (the rebuilt
concatenation starts "7", "6" instead of "7", "2"). -/
theorem claim_C4_counterexample :
    ¬ (canonicalOrder (fire_worker_from_assignment "1"
          (create_initial_assignment_sequential ["1", "2", "3", "4", "5", "6", "7", "8"]))
        = (canonicalOrder (create_initial_assignment_sequential
            ["1", "2", "3", "4", "5", "6", "7", "8"])).filter (fun wid => wid != "1")) := by
  decide

/-- Claim C4 as amended: firing a worker that appears exactly once rebuilds
the assignment by round-robin redistribution of the remaining workers taken
in their pre-fire station-ascending, within-station order (so that order is
the redistribution order, though the rebuilt concatenation does not preserve
it in general), and the result holds exactly n - 1 workers. -/
theorem claim_C4_amended (worker_id : WorkerId) (a : Assignment)
    (h : (canonicalOrder a).count worker_id = 1) :
    fire_worker_from_assignment worker_id a
      = distributeSequential ((canonicalOrder a).filter (fun wid => wid != worker_id)) ∧
    (canonicalOrder (fire_worker_from_assignment worker_id a)).length
      = (canonicalOrder a).length - 1 := by
  refine ⟨fire_eq_redistribute _ _, ?_⟩
  rw [fire_eq_redistribute, length_canonicalOrder_distributeSequential,
    length_filter_ne, h]

/-- Witness for the amended C4: firing "2" from the three-worker round-robin
assignment redistributes ["a", "c"] and leaves two workers. -/
theorem claim_C4_amended_witness :
    fire_worker_from_assignment "2" (create_initial_assignment_sequential ["a", "2", "c"])
      = distributeSequential ((canonicalOrder
          (create_initial_assignment_sequential ["a", "2", "c"])).filter
            (fun wid => wid != "2")) ∧
    (canonicalOrder (fire_worker_from_assignment "2"
        (create_initial_assignment_sequential ["a", "2", "c"]))).length
      = (canonicalOrder (create_initial_assignment_sequential ["a", "2", "c"])).length - 1 :=
  claim_C4_amended "2" (create_initial_assignment_sequential ["a", "2", "c"]) (by decide)

/-- Unfolding of the energy-average definition. -/
theorem calculate_energy_avg_eq (w : TrueWorkerProfile) (fatigue_cost : ℝ) :
    w.calculate_energy_avg fatigue_cost
      = if fatigue_cost / (w.fatigue_base + 5) * SIMULATION_TIME < 0.001 then 1
        else (1 - Real.exp (-(fatigue_cost / (w.fatigue_base + 5) * SIMULATION_TIME)))
          / (fatigue_cost / (w.fatigue_base + 5) * SIMULATION_TIME) := by
  unfold TrueWorkerProfile.calculate_energy_avg
  norm_num

/-- Core bounds for the exponential-average expression on positive arguments. -/
theorem energy_core_bounds (x : ℝ) (hx : 0 < x) :
    0 < (1 - Real.exp (-x)) / x ∧ (1 - Real.exp (-x)) / x < 1 := by
  have hlt : Real.exp (-x) < 1 := Real.exp_lt_one_iff.mpr (by linarith)
  have hnum : 0 < 1 - Real.exp (-x) := by linarith
  have hexp : -x + 1 < Real.exp (-x) := Real.add_one_lt_exp (by linarith)
  constructor
  · exact div_pos hnum hx
  · rw [div_lt_one hx]
    linarith

/-- Claim C10: for `fatigue_base > -5` and `fatigue_cost ≥ 0` the energy
average lies in (0, 1]; it is exactly 1 when `k*T < 0.001` and equals
`(1 - exp(-k*T)) / (k*T) ∈ (0, 1)` otherwise; it is eventually 1 (hence
tends to 1) as the fatigue cost tends to 0 from above, and tends to 0 as the
fatigue cost (hence `k*T`) grows without bound. -/
theorem claim_C10_energy_avg (w : TrueWorkerProfile) (fatigue_cost : ℝ)
    (hb : w.fatigue_base > -5) (hc : 0 ≤ fatigue_cost) :
    (0 < w.calculate_energy_avg fatigue_cost ∧ w.calculate_energy_avg fatigue_cost ≤ 1) ∧
    (fatigue_cost / (w.fatigue_base + 5) * SIMULATION_TIME < 0.001 →
      w.calculate_energy_avg fatigue_cost = 1) ∧
    (¬ fatigue_cost / (w.fatigue_base + 5) * SIMULATION_TIME < 0.001 →
      w.calculate_energy_avg fatigue_cost
          = (1 - Real.exp (-(fatigue_cost / (w.fatigue_base + 5) * SIMULATION_TIME)))
              / (fatigue_cost / (w.fatigue_base + 5) * SIMULATION_TIME) ∧
        0 < w.calculate_energy_avg fatigue_cost ∧
        w.calculate_energy_avg fatigue_cost < 1) ∧
    Filter.Tendsto (fun c => w.calculate_energy_avg c)
      (nhdsWithin 0 (Set.Ioi 0)) (nhds 1) ∧
    Filter.Tendsto (fun c => w.calculate_energy_avg c) Filter.atTop (nhds 0) := by
  have hb5 : 0 < w.fatigue_base + 5 := by linarith
  have hT : SIMULATION_TIME = (8 : ℝ) := by norm_num [SIMULATION_TIME]
  refine ⟨?_, ?_, ?_, ?_, ?_⟩
  · rw [calculate_energy_avg_eq]
    split_ifs with h
    · norm_num
    · push_neg at h
      have hx : 0 < fatigue_cost / (w.fatigue_base + 5) * SIMULATION_TIME := by
        have : (0.001 : ℝ) ≤ fatigue_cost / (w.fatigue_base + 5) * SIMULATION_TIME := h
        linarith
      obtain ⟨h1, h2⟩ := energy_core_bounds _ hx
      exact ⟨h1, le_of_lt h2⟩
  · intro h
    rw [calculate_energy_avg_eq, if_pos h]
  · intro h
    rw [calculate_energy_avg_eq, if_neg h]
    push_neg at h
    have hx : 0 < fatigue_cost / (w.fatigue_base + 5) * SIMULATION_TIME := by linarith
    obtain ⟨h1, h2⟩ := energy_core_bounds _ hx
    exact ⟨rfl, h1, h2⟩
  · have hδ : 0 < 0.001 * (w.fatigue_base + 5) / SIMULATION_TIME := by
      rw [hT]; positivity
    refine Filter.Tendsto.congr' ?_ tendsto_const_nhds
    filter_upwards [Ioo_mem_nhdsWithin_Ioi
      (Set.mem_Ico.mpr ⟨le_refl (0 : ℝ), hδ⟩)] with c hc'
    obtain ⟨hc0, hcδ⟩ := hc'
    rw [calculate_energy_avg_eq, if_pos]
    rw [hT] at hcδ ⊢
    rw [div_mul_eq_mul_div, div_lt_iff hb5]
    calc c * 8 < 0.001 * (w.fatigue_base + 5) / 8 * 8 := by linarith
    _ = 0.001 * (w.fatigue_base + 5) := by ring
  · have hC : 0 < 0.001 * (w.fatigue_base + 5) / SIMULATION_TIME := by
      rw [hT]; positivity
    have hbound : Filter.Tendsto (fun c : ℝ => (w.fatigue_base + 5) / 8 * c⁻¹)
        Filter.atTop (nhds 0) := by
      have := Filter.Tendsto.const_mul ((w.fatigue_base + 5) / 8) tendsto_inv_atTop_zero
      simpa using this
    refine tendsto_of_tendsto_of_tendsto_of_le_of_le' tendsto_const_nhds hbound ?_ ?_
    · filter_upwards [Filter.eventually_ge_atTop (0 : ℝ)] with c hc0
      rw [calculate_energy_avg_eq]
      split_ifs with h
      · norm_num
      · push_neg at h
        have hx : 0 < c / (w.fatigue_base + 5) * SIMULATION_TIME := by linarith
        exact le_of_lt (energy_core_bounds _ hx).1
    · filter_upwards [Filter.eventually_ge_atTop
        (max (0.001 * (w.fatigue_base + 5) / SIMULATION_TIME) 1)] with c hcC
      have hc1 : (1 : ℝ) ≤ c := le_trans (le_max_right _ _) hcC
      have hcpos : 0 < c := by linarith
      have hcm : 0.001 * (w.fatigue_base + 5) / SIMULATION_TIME ≤ c :=
        le_trans (le_max_left _ _) hcC
      have hx : (0.001 : ℝ) ≤ c / (w.fatigue_base + 5) * SIMULATION_TIME := by
        rw [hT] at hcm ⊢
        rw [div_mul_eq_mul_div, le_div_iff hb5]
        have : 0.001 * (w.fatigue_base + 5) / 8 * 8 ≤ c * 8 := by linarith
        calc 0.001 * (w.fatigue_base + 5)
            = 0.001 * (w.fatigue_base + 5) / 8 * 8 := by ring
        _ ≤ c * 8 := this
      have hxpos : 0 < c / (w.fatigue_base + 5) * SIMULATION_TIME := by linarith
      rw [calculate_energy_avg_eq, if_neg (by push_neg; exact hx)]
      have hnum : 1 - Real.exp (-(c / (w.fatigue_base + 5) * SIMULATION_TIME)) ≤ 1 := by
        have := Real.exp_pos (-(c / (w.fatigue_base + 5) * SIMULATION_TIME))
        linarith
      calc (1 - Real.exp (-(c / (w.fatigue_base + 5) * SIMULATION_TIME)))
            / (c / (w.fatigue_base + 5) * SIMULATION_TIME)
          ≤ 1 / (c / (w.fatigue_base + 5) * SIMULATION_TIME) := by
            gcongr
      _ = (w.fatigue_base + 5) / 8 * c⁻¹ := by
            rw [hT, div_mul_eq_mul_div, one_div_div, div_mul_eq_div_div_swap,
              div_eq_mul_inv]

/-- The code's rotation adjustment coincides with the spec's formulation. -/
theorem rotationAdjustment_eq_spec (m : FactoryModel) (original_assignment temp : Assignment)
    (station_id position_idx : Nat) :
    rotationAdjustment m original_assignment temp station_id position_idx
      = adjustmentSpec m original_assignment temp station_id position_idx := by
  unfold rotationAdjustment adjustmentSpec
  congr 1
  apply List.map_congr_left
  intro pr _
  by_cases h : pr.1 < (original_assignment station_id).length
  · rw [List.getElem?_eq_getElem h, List.getD_eq_getElem?_getD,
      List.getElem?_eq_getElem h]
    dsimp only [Option.getD]
    by_cases h1 : pr.1 ≠ position_idx ∧ pr.2 ≠ (original_assignment station_id)[pr.1]
    · rw [if_pos ⟨h1.1, h, h1.2⟩, if_pos h1]
    · rw [if_neg (fun hc => h1 ⟨hc.1, hc.2.2⟩), if_neg h1]
  · rw [List.getElem?_eq_none (le_of_not_lt h)]
    rw [if_neg (fun hc => h hc.2.1)]

/-- The recording step only appends events satisfying `rotEventOk`. -/
theorem recordStep_events_ok (true_workers : List TrueWorkerProfile)
    (tasks : List TaskProfile) (initial_assign temp : Assignment) (position_idx : Nat)
    (st : FactoryModel × List RotEvent) (pr : Nat × WorkerId)
    (h : ∀ ev ∈ st.2, rotEventOk true_workers tasks initial_assign ev) :
    ∀ ev ∈ (recordStep initial_assign
        (simulate_station_performance true_workers tasks initial_assign) temp
        (simulate_station_performance true_workers tasks temp) position_idx st pr).2,
      rotEventOk true_workers tasks initial_assign ev := by
  intro ev hev
  unfold recordStep at hev
  dsimp only at hev
  split at hev
  · exact h ev hev
  · rcases List.mem_append.mp hev with h1 | h1
    · exact h ev h1
    · rcases List.mem_singleton.mp h1 with rfl
      unfold rotEventOk
      dsimp only
      rw [rotationAdjustment_eq_spec]
      unfold rawPercentageSpec
      by_cases h0 : simulate_station_performance true_workers tasks initial_assign pr.1 = 0
      · rw [if_neg (fun hc => hc h0), if_pos h0]
      · rw [if_pos h0, if_neg h0]

/-- One whole rotation only appends events satisfying `rotEventOk`. -/
theorem rotationStep_events_ok (true_workers : List TrueWorkerProfile)
    (tasks : List TaskProfile) (initial_assign : Assignment)
    (source_stations : List Nat) (workers_to_rotate : List WorkerId) (position_idx : Nat)
    (st : Assignment × FactoryModel × List RotEvent) (r : Nat)
    (h : ∀ ev ∈ st.2.2, rotEventOk true_workers tasks initial_assign ev) :
    ∀ ev ∈ (rotationStep true_workers tasks initial_assign
        (simulate_station_performance true_workers tasks initial_assign)
        source_stations workers_to_rotate position_idx st r).2.2,
      rotEventOk true_workers tasks initial_assign ev := by
  unfold rotationStep
  dsimp only
  intro ev hev
  refine (foldl_preserves (fun (s2 : FactoryModel × List RotEvent) =>
      ∀ e ∈ s2.2, rotEventOk true_workers tasks initial_assign e)
    _ ?_ _ (st.2.1, st.2.2) h) ev hev
  exact fun s2 x hx => recordStep_events_ok _ _ _ _ _ s2 x hx

/-- One position round only appends events satisfying `rotEventOk`. -/
theorem positionStep_events_ok (true_workers : List TrueWorkerProfile)
    (tasks : List TaskProfile) (initial_assign : Assignment)
    (max_workers_per_station : Nat)
    (st : Assignment × FactoryModel × List RotEvent) (position_idx : Nat)
    (h : ∀ ev ∈ st.2.2, rotEventOk true_workers tasks initial_assign ev) :
    ∀ ev ∈ (positionStep true_workers tasks initial_assign
        (simulate_station_performance true_workers tasks initial_assign)
        max_workers_per_station st position_idx).2.2,
      rotEventOk true_workers tasks initial_assign ev := by
  unfold positionStep
  dsimp only
  split
  · exact h
  · split
    · exact h
    · have key := foldl_preserves
        (fun (s3 : Assignment × FactoryModel × List RotEvent) =>
          ∀ e ∈ s3.2.2, rotEventOk true_workers tasks initial_assign e)
        (rotationStep true_workers tasks initial_assign
          (simulate_station_performance true_workers tasks initial_assign)
          (stationList.filter (fun s => position_idx < (initial_assign s).length))
          ((stationList.filter (fun s => position_idx < (initial_assign s).length)).map
            (fun s => (initial_assign s).getD position_idx ""))
          position_idx)
        (fun s3 r hr => rotationStep_events_ok _ _ _ _ _ _ s3 r hr)
        (List.range ((stationList.filter
          (fun s => position_idx < (initial_assign s).length)).map
            (fun s => (initial_assign s).getD position_idx "")).length)
        (st.1, st.2.1, st.2.2) h
      split
      · exact fun ev hev => key ev hev
      · exact fun ev hev => key ev hev

/-- Claim C5: every observation recorded by the rotation phase of a full
collection run satisfies the spec's formula — the recorded value is
`rawPercentage - adjustment`, where the raw percentage compares the temporary
assignment's station total against the frozen initial-assignment base (100 on
a zero base), and the adjustment sums `learnedAvg - 100` over the other
positions of the probed station whose temporary occupant exists in and
differs from the original assignment, read from the learned model as it
stood at recording time. -/
theorem claim_C5_rotation_recording (true_workers : List TrueWorkerProfile)
    (tasks : List TaskProfile) (initial_assign : Assignment) (m : FactoryModel) :
    ((systematic_data_collection_ui true_workers tasks initial_assign m).2.2.1).Forall
      (rotEventOk true_workers tasks initial_assign) := by
  rw [List.forall_iff_forall_mem]
  unfold systematic_data_collection_ui
  dsimp only
  have key := foldl_preserves
    (fun (s3 : Assignment × FactoryModel × List RotEvent) =>
      ∀ e ∈ s3.2.2, rotEventOk true_workers tasks initial_assign e)
    (positionStep true_workers tasks initial_assign
      (simulate_station_performance true_workers tasks initial_assign)
      ((stationList.map (fun s => (initial_assign s).length)).foldl max 0))
    (fun s3 p hp => positionStep_events_ok _ _ _ _ s3 p hp)
    (List.range ((stationList.map (fun s => (initial_assign s).length)).foldl max 0))
    (initial_assign, basePhase initial_assign m, ([] : List RotEvent))
    (by intro e he; cases he)
  split
  · exact fun ev hev => key ev hev
  · exact fun ev hev => key ev hev

/-- Claim C6: every observation recorded by the gap filler equals
`individualPerformance / base * 100 + 100` on a positive base and 100 flat on
a zero base, where the base is the station total of the assignment captured
once at gap-filler entry and the individual performance is the oracle
performance of the probed worker at the target station. -/
theorem claim_C6_gap_recording (true_workers : List TrueWorkerProfile)
    (tasks : List TaskProfile) (a : Assignment) (m : FactoryModel) :
    ((collect_incomplete_worker_data_ui true_workers tasks a m).2.2).Forall
      (gapEventOk true_workers tasks a) := by
  rw [List.forall_iff_forall_mem]
  unfold collect_incomplete_worker_data_ui
  dsimp only
  split
  · intro ev hev; cases hev
  · refine fun ev hev => (foldl_preserves (fun (st : FactoryModel × List GapEvent) =>
      ∀ e ∈ st.2, gapEventOk true_workers tasks a e) _ ?_ _ (m, [])
      (by intro e he; cases he)) ev hev
    intro st w hst
    unfold gapWorker
    dsimp only
    refine foldl_preserves (fun (st2 : FactoryModel × List GapEvent) =>
      ∀ e ∈ st2.2, gapEventOk true_workers tasks a e) _ ?_ _ (st.1, st.2) hst
    intro st2 ts h2 e he
    rcases List.mem_append.mp he with h1 | h1
    · exact h2 e h1
    · rcases List.mem_singleton.mp h1 with rfl
      unfold gapEventOk
      dsimp only
      constructor
      · intro hpos
        rw [if_pos hpos]
        rfl
      · intro h0
        rw [if_neg (by rw [h0]; exact lt_irrefl 0)]
        norm_num

/-- A selected best worker is always an unassigned member of the cohort. -/
theorem chooseBest_spec (m : FactoryModel) (station : Nat)
    (position_workers assigned : List WorkerId) :
    ∀ bw sc, chooseBest m station position_workers assigned = some (bw, sc) →
      bw ∈ position_workers ∧ bw ∉ assigned := by
  unfold chooseBest
  suffices h : ∀ (cands : List WorkerId) (acc : Option (WorkerId × ℝ)),
      (∀ bw sc, acc = some (bw, sc) → bw ∈ position_workers ∧ bw ∉ assigned) →
      (∀ w ∈ cands, w ∈ position_workers) →
      ∀ bw sc, (cands.foldl (fun best wid =>
          if wid ∈ assigned then best
          else
            match best with
            | none => some (wid, m.get_average_percentage wid station)
            | some (bw, bs) =>
                if m.get_average_percentage wid station > bs then
                  some (wid, m.get_average_percentage wid station)
                else some (bw, bs)) acc) = some (bw, sc) →
        bw ∈ position_workers ∧ bw ∉ assigned by
    exact h position_workers none (by intro bw sc hx; cases hx) (fun w hw => hw)
  intro cands
  induction cands with
  | nil => intro acc hacc _ bw sc h; exact hacc bw sc h
  | cons w cands ih =>
      intro acc hacc hmem bw sc h
      rw [List.foldl_cons] at h
      refine ih _ ?_ (fun x hx => hmem x (List.mem_cons_of_mem _ hx)) bw sc h
      intro bw' sc' hacc'
      by_cases hw : w ∈ assigned
      · rw [if_pos hw] at hacc'
        exact hacc bw' sc' hacc'
      · rw [if_neg hw] at hacc'
        cases acc with
        | none =>
            simp only at hacc'
            injection hacc' with h1
            injection h1 with h2 h3
            subst h2
            exact ⟨hmem w (List.mem_cons_self _ _), hw⟩
        | some pr =>
            obtain ⟨bw₀, bs₀⟩ := pr
            simp only at hacc'
            split at hacc'
            · injection hacc' with h1
              injection h1 with h2 h3
              subst h2
              exact ⟨hmem w (List.mem_cons_self _ _), hw⟩
            · injection hacc' with h1
              injection h1 with h2 h3
              subst h2
              exact hacc bw₀ bs₀ rfl

/-- If some cohort worker is still unassigned, the greedy selection finds
one (the `best_score = -inf` start means the first unassigned candidate is
always taken). -/
theorem chooseBest_isSome (m : FactoryModel) (station : Nat)
    (position_workers assigned : List WorkerId)
    (h : ∃ x ∈ position_workers, x ∉ assigned) :
    (chooseBest m station position_workers assigned).isSome := by
  unfold chooseBest
  suffices haux : ∀ (cands : List WorkerId) (acc : Option (WorkerId × ℝ)),
      (acc.isSome ∨ ∃ x ∈ cands, x ∉ assigned) →
      (cands.foldl (fun best wid =>
          if wid ∈ assigned then best
          else
            match best with
            | none => some (wid, m.get_average_percentage wid station)
            | some (bw, bs) =>
                if m.get_average_percentage wid station > bs then
                  some (wid, m.get_average_percentage wid station)
                else some (bw, bs)) acc).isSome by
    exact haux position_workers none (Or.inr h)
  intro cands
  induction cands with
  | nil =>
      intro acc hacc
      rcases hacc with hs | ⟨x, hx, _⟩
      · exact hs
      · exact absurd hx (List.not_mem_nil x)
  | cons w cands ih =>
      intro acc hacc
      rw [List.foldl_cons]
      have hpres : ∀ (acc : Option (WorkerId × ℝ)), acc.isSome →
          (if w ∈ assigned then acc
           else
            match acc with
            | none => some (w, m.get_average_percentage w station)
            | some (bw, bs) =>
                if m.get_average_percentage w station > bs then
                  some (w, m.get_average_percentage w station)
                else some (bw, bs)).isSome := by
        intro acc hs
        cases acc with
        | none => cases hs
        | some pr =>
            obtain ⟨bw₀, bs₀⟩ := pr
            by_cases hw : w ∈ assigned
            · rw [if_pos hw]; rfl
            · rw [if_neg hw]
              simp only
              split <;> rfl
      rcases hacc with hs | ⟨x, hx, hxa⟩
      · exact ih _ (Or.inl (hpres acc hs))
      · rcases List.mem_cons.mp hx with rfl | hx'
        · refine ih _ (Or.inl ?_)
          rw [if_neg hxa]
          cases acc with
          | none => rfl
          | some pr =>
              obtain ⟨bw₀, bs₀⟩ := pr
              simp only
              split <;> rfl
        · exact ih _ (Or.inr ⟨x, hx', hxa⟩)

/-- Unfolding of a guarded `filterMap` into filter-then-map. -/
theorem filterMap_guard {α β : Type _} (P : α → Prop) [DecidablePred P] (g : α → β)
    (l : List α) :
    l.filterMap (fun a => if P a then some (g a) else none)
      = (l.filter (fun a => decide (P a))).map g := by
  induction l with
  | nil => rfl
  | cons a l ih =>
      by_cases h : P a
      · simp [List.filterMap_cons, List.filter_cons, h, ih]
      · simp [List.filterMap_cons, List.filter_cons, h, ih]

theorem sum_map_ite_one {α : Type _} (l : List α) (P : α → Prop) [DecidablePred P] :
    (l.map (fun a => if P a then (1 : Nat) else 0)).sum
      = l.countP (fun a => decide (P a)) := by
  induction l with
  | nil => rfl
  | cons a l ih => by_cases h : P a <;> simp [List.countP_cons, h, ih, Nat.add_comm]

theorem sum_map_add_nat {α : Type _} (l : List α) (f g : α → Nat) :
    (l.map (fun a => f a + g a)).sum = (l.map f).sum + (l.map g).sum := by
  induction l with
  | nil => rfl
  | cons a l ih =>
      simp only [List.map_cons, List.sum_cons, ih]
      omega

/-- Invariant of the greedy per-station placement loop of `optimize_position`:
after processing `done` (with `todo` remaining), the placed workers are
pairwise-distinct cohort members, one per processed station in order, placed
at the probed position; all other entries, all lengths, and all unprocessed
stations are untouched. -/
theorem optimize_fold_invariant (m : FactoryModel) (cur : Assignment) (p : Nat)
    (cands : List WorkerId)
    (hcands : cands = (stationList.filter (fun s => decide (p < (cur s).length))).map
      (fun s => (cur s).getD p ""))
    (hempty : "" ∉ cands) (hnodupc : cands.Nodup) :
    ∀ (todo done : List Nat)
      (st : Assignment × List WorkerId × List (Nat × WorkerId × WorkerId × ℝ)),
      done ++ todo = stationList.filter (fun s => decide (p < (cur s).length)) →
      st.2.1.Nodup →
      (∀ w ∈ st.2.1, w ∈ cands) →
      st.2.1.length = done.length →
      (∀ s, (st.1 s).length = (cur s).length) →
      (∀ s q, q ≠ p → (st.1 s)[q]? = (cur s)[q]?) →
      (∀ s, s ∉ done → st.1 s = cur s) →
      done.map (fun s => (st.1 s).getD p "") = st.2.1 →
      ∀ res, res = todo.foldl (fun st s =>
          match chooseBest m s cands st.2.1 with
          | some (bw, bs) =>
              if bw ≠ "" then
                (assignSet st.1 s p bw, (st.2.1 ++ [bw],
                  st.2.2 ++ [(s, (st.1 s).getD p "", bw, bs)]))
              else st
          | none => st) st →
        res.2.1.Nodup ∧
        (∀ w ∈ res.2.1, w ∈ cands) ∧
        res.2.1.length = (done ++ todo).length ∧
        (∀ s, (res.1 s).length = (cur s).length) ∧
        (∀ s q, q ≠ p → (res.1 s)[q]? = (cur s)[q]?) ∧
        (∀ s, s ∉ done ++ todo → res.1 s = cur s) ∧
        (done ++ todo).map (fun s => (res.1 s).getD p "") = res.2.1 := by
  intro todo
  induction todo with
  | nil =>
      intro done st happ h1 h2 h3 h4 h5 h6 h7 res hres
      rw [List.foldl_nil] at hres
      subst hres
      exact ⟨h1, h2, by simpa using h3, h4, h5, by simpa using h6, by simpa using h7⟩
  | cons s₀ todo ih =>
      intro done st happ h1 h2 h3 h4 h5 h6 h7 res hres
      have hstn : stationList.Nodup := by rw [stationList_eq]; decide
      have hSWnodup : (done ++ s₀ :: todo).Nodup := by rw [happ]; exact hstn.filter _
      have hs₀mem : s₀ ∈ stationList.filter (fun s => decide (p < (cur s).length)) := by
        rw [← happ]
        exact List.mem_append.mpr (Or.inr (List.mem_cons_self _ _))
      have hps₀ : p < (cur s₀).length := by
        have := List.of_mem_filter hs₀mem
        simpa using this
      have hs₀done : s₀ ∉ done := by
        intro hmem
        have hdisj := List.disjoint_of_nodup_append hSWnodup
        exact (List.disjoint_left.mp hdisj hmem) (List.mem_cons_self _ _)
      have hlencands : cands.length = (done ++ s₀ :: todo).length := by
        rw [hcands, happ, List.length_map]
      have hex : ∃ x ∈ cands, x ∉ st.2.1 := by
        by_contra hno
        push_neg at hno
        have hsub : cands ⊆ st.2.1 := fun x hx => hno x hx
        have hle := (hnodupc.subperm hsub).length_le
        rw [h3, hlencands] at hle
        simp [List.length_append] at hle
      obtain ⟨⟨bw, bs⟩, hcb⟩ : ∃ pr, chooseBest m s₀ cands st.2.1 = some pr :=
        Option.isSome_iff_exists.mp (chooseBest_isSome m s₀ cands st.2.1 hex)
      obtain ⟨hbwc, hbwna⟩ := chooseBest_spec m s₀ cands st.2.1 bw bs hcb
      have hbwne : bw ≠ "" := fun hbw => hempty (hbw ▸ hbwc)
      rw [List.foldl_cons] at hres
      rw [hcb] at hres
      dsimp only at hres
      rw [if_pos hbwne] at hres
      have happ' : (done ++ [s₀]) ++ todo
          = stationList.filter (fun s => decide (p < (cur s).length)) := by
        rw [← happ]
        simp
      have hcur₀ : st.1 s₀ = cur s₀ := h6 s₀ hs₀done
      have hres' := ih (done ++ [s₀])
        (assignSet st.1 s₀ p bw, (st.2.1 ++ [bw],
          st.2.2 ++ [(s₀, (st.1 s₀).getD p "", bw, bs)]))
        happ'
        (by
          refine List.Nodup.append h1 (List.nodup_singleton bw) ?_
          intro x hx hx'
          rcases List.mem_singleton.mp hx' with rfl
          exact hbwna hx)
        (by
          intro w hw
          rcases List.mem_append.mp hw with hw' | hw'
          · exact h2 w hw'
          · rcases List.mem_singleton.mp hw' with rfl
            exact hbwc)
        (by simp [h3])
        (by
          intro s
          dsimp only [assignSet]
          by_cases hss : s = s₀
          · rw [if_pos hss, List.length_set, h4]
          · rw [if_neg hss]
            exact h4 s)
        (by
          intro s q hq
          dsimp only [assignSet]
          by_cases hss : s = s₀
          · rw [if_pos hss, List.getElem?_set, if_neg (fun hpq : p = q => hq hpq.symm)]
            exact h5 s q hq
          · rw [if_neg hss]
            exact h5 s q hq)
        (by
          intro s hs
          dsimp only [assignSet]
          rw [if_neg (fun hss : s = s₀ =>
            hs (List.mem_append.mpr (Or.inr (hss ▸ List.mem_singleton_self s₀))))]
          exact h6 s (fun hsd => hs (List.mem_append.mpr (Or.inl hsd))))
        (by
          rw [List.map_append]
          congr 1
          · rw [← h7]
            apply List.map_congr_left
            intro s hs
            dsimp only [assignSet]
            rw [if_neg (fun hss : s = s₀ => hs₀done (hss ▸ hs))]
          · dsimp only [assignSet, List.map_cons, List.map_nil]
            rw [if_pos rfl, hcur₀, List.getD_eq_getElem?_getD, List.getElem?_set,
              if_pos rfl, if_pos hps₀]
            rfl)
        res hres
      rw [List.append_cons]
      exact hres'

theorem getD_mem_of_lt {α : Type _} (l : List α) (n : Nat) (h : n < l.length) (d : α) :
    l.getD n d ∈ l := by
  rw [List.getD_eq_getElem?_getD, List.getElem?_eq_getElem h]
  exact List.getElem_mem h

/-- Under the one-station-per-worker invariant, the occupants of a fixed
position across the stations having that position are pairwise distinct. -/
theorem cohort_nodup (cur : Assignment) (p : Nat) (h1 : (canonicalOrder cur).Nodup) :
    ((stationList.filter (fun s => decide (p < (cur s).length))).map
      (fun s => (cur s).getD p "")).Nodup := by
  have hstn : stationList.Nodup := by rw [stationList_eq]; decide
  have hSW : (stationList.filter (fun s => decide (p < (cur s).length))).Nodup :=
    hstn.filter _
  have hdisjall : List.Pairwise (fun s t => (cur s).Disjoint (cur t)) stationList := by
    have := (List.nodup_flatten.mp h1).2
    exact List.pairwise_map.mp this
  have hdisj : ∀ s ∈ stationList, ∀ t ∈ stationList, s ≠ t →
      (cur s).Disjoint (cur t) :=
    fun s hs t ht hne =>
      hdisjall.forall (fun _ _ hd => hd.symm) hs ht hne
  refine List.pairwise_map.mpr ?_
  refine hSW.imp_of_mem ?_
  intro s t hs ht hne heq
  have hps : p < (cur s).length := by simpa using List.of_mem_filter hs
  have hpt : p < (cur t).length := by simpa using List.of_mem_filter ht
  have hmems : (cur s).getD p "" ∈ cur s := getD_mem_of_lt _ _ hps _
  have hmemt : (cur t).getD p "" ∈ cur t := getD_mem_of_lt _ _ hpt _
  exact hdisj s (List.mem_of_mem_filter hs) t (List.mem_of_mem_filter ht) hne
    hmems (heq ▸ hmemt)

/-- A list that agrees with `l` everywhere except possibly at `p` (and has
the same length) is `l` with position `p` overwritten. -/
theorem eq_set_of_eq_off {α : Type _} (l l' : List α) (p : Nat)
    (hlen : l'.length = l.length) (hoff : ∀ q, q ≠ p → l'[q]? = l[q]?)
    (hp : p < l.length) (d : α) :
    l' = l.set p (l'.getD p d) := by
  apply List.ext_getElem?
  intro n
  by_cases hn : n = p
  · subst hn
    rw [List.getElem?_set, if_pos rfl, if_pos hp, List.getD_eq_getElem?_getD,
      List.getElem?_eq_getElem (by rw [hlen]; exact hp)]
    rfl
  · rw [List.getElem?_set, if_neg (fun h => hn h.symm)]
    exact hoff n hn

/-- Count bookkeeping for overwriting one in-range position. -/
theorem count_set_eq (l : List WorkerId) (p : Nat) (hp : p < l.length)
    (x w : WorkerId) :
    (l.set p x).count w + (if l.getD p "" = w then 1 else 0)
      = l.count w + (if x = w then 1 else 0) := by
  have hgd : l.getD p "" = l[p] := by
    rw [List.getD_eq_getElem?_getD, List.getElem?_eq_getElem hp]
    rfl
  have hsplit : l.set p x = l.take p ++ x :: l.drop (p + 1) := by
    rw [List.set_eq_take_append_cons_drop, if_pos hp]
  have hdrop : l.drop p = l[p] :: l.drop (p + 1) := (List.getElem_cons_drop l p hp).symm
  have hl : l.count w = (l.take p ++ l[p] :: l.drop (p + 1)).count w := by
    conv_lhs => rw [← List.take_append_drop p l, hdrop]
  rw [hgd, hsplit, hl]
  simp only [List.count_append, List.count_cons]
  by_cases h : l[p] = w <;> by_cases h2 : x = w <;> simp [h, h2] <;> omega

theorem canonicalOrder_count (b : Assignment) (w : WorkerId) :
    (canonicalOrder b).count w = (stationList.map (fun s => (b s).count w)).sum := by
  unfold canonicalOrder
  rw [List.count_flatten, List.map_map]
  rfl

/-- From the loop invariant's final state, derive the permutation-style
conclusions about the optimized assignment. -/
theorem optimize_conclusions (cur : Assignment) (p : Nat) (res1 : Assignment)
    (assigned : List WorkerId)
    (h1 : (canonicalOrder cur).Nodup)
    (f4 : ∀ s, (res1 s).length = (cur s).length)
    (f5 : ∀ s q, q ≠ p → (res1 s)[q]? = (cur s)[q]?)
    (f6 : ∀ s, s ∉ stationList.filter (fun s => decide (p < (cur s).length)) →
      res1 s = cur s)
    (f7 : (stationList.filter (fun s => decide (p < (cur s).length))).map
      (fun s => (res1 s).getD p "") = assigned)
    (hperm : assigned.Perm ((stationList.filter
      (fun s => decide (p < (cur s).length))).map (fun s => (cur s).getD p ""))) :
    ((stationList.filter (fun s => decide (p < (cur s).length))).map
        (fun s => (res1 s).getD p "")).Perm
      ((stationList.filter (fun s => decide (p < (cur s).length))).map
        (fun s => (cur s).getD p "")) ∧
    (canonicalOrder res1).Perm (canonicalOrder cur) ∧
    (canonicalOrder res1).Nodup := by
  have hpermP : ((stationList.filter (fun s => decide (p < (cur s).length))).map
      (fun s => (res1 s).getD p "")).Perm
      ((stationList.filter (fun s => decide (p < (cur s).length))).map
        (fun s => (cur s).getD p "")) := by
    rw [f7]
    exact hperm
  have hcanon : (canonicalOrder res1).Perm (canonicalOrder cur) := by
    rw [List.perm_iff_count]
    intro w
    rw [canonicalOrder_count, canonicalOrder_count]
    have hE : ∀ s, (res1 s).count w
          + (if p < (cur s).length ∧ (cur s).getD p "" = w then 1 else 0)
        = (cur s).count w
          + (if p < (cur s).length ∧ (res1 s).getD p "" = w then 1 else 0) := by
      intro s
      by_cases hps : p < (cur s).length
      · by_cases hsl : s ∈ stationList
        · have hsSW : s ∈ stationList.filter (fun s => decide (p < (cur s).length)) :=
            List.mem_filter.mpr ⟨hsl, by simpa using hps⟩
          have hset : res1 s = (cur s).set p ((res1 s).getD p "") :=
            eq_set_of_eq_off (cur s) (res1 s) p (f4 s) (fun q hq => f5 s q hq) hps ""
          simp only [hps, true_and]
          calc (res1 s).count w + (if (cur s).getD p "" = w then 1 else 0)
              = ((cur s).set p ((res1 s).getD p "")).count w
                  + (if (cur s).getD p "" = w then 1 else 0) := by rw [← hset]
            _ = (cur s).count w + (if (res1 s).getD p "" = w then 1 else 0) :=
              count_set_eq (cur s) p hps _ w
        · have heq : res1 s = cur s :=
            f6 s (fun hmem => hsl (List.mem_of_mem_filter hmem))
          rw [heq]
      · have heq : res1 s = cur s := f6 s (fun hmem =>
          hps (by simpa using List.of_mem_filter hmem))
        rw [heq]
    have hfeq : (fun s => (res1 s).count w
          + (if p < (cur s).length ∧ (cur s).getD p "" = w then 1 else 0))
        = (fun s => (cur s).count w
          + (if p < (cur s).length ∧ (res1 s).getD p "" = w then 1 else 0)) :=
      funext hE
    have hsum := congrArg (fun f => (stationList.map f).sum) hfeq
    dsimp only at hsum
    rw [sum_map_add_nat, sum_map_add_nat] at hsum
    have hA : (stationList.map (fun s =>
        if p < (cur s).length ∧ (cur s).getD p "" = w then 1 else 0)).sum
        = (((stationList.filter (fun s => decide (p < (cur s).length))).map
            (fun s => (cur s).getD p "")).count w) := by
      rw [sum_map_ite_one, List.count_eq_countP, List.countP_map, List.countP_filter]
      apply List.countP_congr
      intro s _
      by_cases hp1 : p < (cur s).length <;> by_cases hp2 : (cur s).getD p "" = w <;>
        simp [hp1, hp2]
    have hB : (stationList.map (fun s =>
        if p < (cur s).length ∧ (res1 s).getD p "" = w then 1 else 0)).sum
        = assigned.count w := by
      rw [← f7, sum_map_ite_one, List.count_eq_countP, List.countP_map,
        List.countP_filter]
      apply List.countP_congr
      intro s _
      by_cases hp1 : p < (cur s).length <;> by_cases hp2 : (res1 s).getD p "" = w <;>
        simp [hp1, hp2]
    have hcw := hperm.count_eq w
    omega
  exact ⟨hpermP, hcanon, hcanon.nodup_iff.mpr h1⟩

/-- Claim C8: for an assignment in which every active worker id appears in
exactly one station's sequence exactly once (and ids are nonempty strings,
as the id allocator guarantees — Python's `if best_worker:` treats the empty
string as missing), `optimize_position` preserves the invariant: all
sequence lengths and all entries at positions other than the probed one are
unchanged, the occupants of the probed position across the stations having
it are permuted among themselves, and consequently the canonical worker
order of the result is a permutation of the input's, still without
duplicates. -/
theorem claim_C8_optimize_position_invariant (m : FactoryModel) (cur : Assignment)
    (p : Nat) (h1 : (canonicalOrder cur).Nodup) (h2 : "" ∉ canonicalOrder cur) :
    (∀ s, ((optimize_position m cur p).1 s).length = (cur s).length) ∧
    (∀ s q, q ≠ p → ((optimize_position m cur p).1 s)[q]? = (cur s)[q]?) ∧
    ((stationList.filter (fun s => p < (cur s).length)).map
        (fun s => ((optimize_position m cur p).1 s).getD p "")).Perm
      ((stationList.filter (fun s => p < (cur s).length)).map
        (fun s => (cur s).getD p "")) ∧
    (canonicalOrder (optimize_position m cur p).1).Perm (canonicalOrder cur) ∧
    (canonicalOrder (optimize_position m cur p).1).Nodup := by
  have hempty' : "" ∉ (stationList.filter
      (fun s => decide (p < (cur s).length))).map (fun s => (cur s).getD p "") := by
    intro hmem
    rw [List.mem_map] at hmem
    obtain ⟨s, hs, hocc⟩ := hmem
    have hps : p < (cur s).length := by simpa using List.of_mem_filter hs
    have hmem2 : (cur s).getD p "" ∈ cur s := getD_mem_of_lt _ _ hps _
    apply h2
    unfold canonicalOrder
    rw [List.mem_flatten]
    exact ⟨cur s, List.mem_map.mpr ⟨s, List.mem_of_mem_filter hs, rfl⟩, hocc ▸ hmem2⟩
  have hnodupc := cohort_nodup cur p h1
  unfold optimize_position
  dsimp only
  rw [filterMap_guard (fun s => p < (cur s).length) (fun s => (cur s).getD p "")
    stationList]
  split
  · exact ⟨fun s => rfl, fun s q _ => rfl, List.Perm.refl _, List.Perm.refl _, h1⟩
  · dsimp only
    obtain ⟨f1, f2, f3, f4, f5, f6, f7⟩ :=
      optimize_fold_invariant m cur p
        ((stationList.filter (fun s => decide (p < (cur s).length))).map
          (fun s => (cur s).getD p ""))
        rfl hempty' hnodupc
        (stationList.filter (fun s => decide (p < (cur s).length))) [] (cur, ([], []))
        (by simp) List.nodup_nil (by intro w hw; cases hw) rfl (fun s => rfl)
        (fun s q _ => rfl) (fun s _ => rfl) rfl _ rfl
    have hclen : ((stationList.filter (fun s => decide (p < (cur s).length))).map
        (fun s => (cur s).getD p "")).length
        = (stationList.filter (fun s => decide (p < (cur s).length))).length :=
      List.length_map _ _
    have hsubset := fun w hw => f2 w hw
    have hperm := (f1.subperm hsubset).perm_of_length_le
      (by rw [f3]; simpa using hclen.le)
    have hmapres := f7
    rw [List.nil_append] at hmapres
    obtain ⟨c3, c4, c5⟩ := optimize_conclusions cur p _ _ h1 f4 f5
      (fun s hs => f6 s (by simpa using hs)) hmapres hperm
    exact ⟨f4, f5, c3, c4, c5⟩

/-- Witness for C8 on the two-worker round-robin assignment at position 0
with an empty learned model. -/
theorem claim_C8_optimize_position_invariant_witness :
    (canonicalOrder (create_initial_assignment_sequential ["a", "b"])).Nodup ∧
    "" ∉ canonicalOrder (create_initial_assignment_sequential ["a", "b"]) ∧
    ∀ s, ((optimize_position { ids := [], perfs := fun _ _ => [] }
        (create_initial_assignment_sequential ["a", "b"]) 0).1 s).length
      = (create_initial_assignment_sequential ["a", "b"] s).length :=
  ⟨by decide, by decide,
    (claim_C8_optimize_position_invariant { ids := [], perfs := fun _ _ => [] }
      (create_initial_assignment_sequential ["a", "b"]) 0
      (by decide) (by decide)).1⟩

theorem record_ids (m : FactoryModel) (w₀ : WorkerId) (s₀ : Nat) (v : ℝ) :
    (m.record_performance_percentage w₀ s₀ v).ids = m.ids := rfl

theorem record_perfs (m : FactoryModel) (w₀ : WorkerId) (s₀ : Nat) (v : ℝ)
    (w : WorkerId) (s : Nat) :
    (m.record_performance_percentage w₀ s₀ v).perfs w s
      = if w = w₀ ∧ s = s₀ then m.perfs w₀ s₀ ++ [v] else m.perfs w s := rfl

theorem has_data_iff_len (m : FactoryModel) (w : WorkerId) (s : Nat) :
    m.has_data_for_station w s = true ↔ 0 < (m.perfs w s).length := by
  unfold FactoryModel.has_data_for_station
  rw [List.length_pos]
  simp [List.isEmpty_iff]

/-- The base phase's inner per-station loop: the observation count of `(w, s)`
grows by the number of occurrences of `w` in the station's list, provided `w`
is a known factory worker and `s` is the recorded station. -/
theorem baseInner_ids (s' : Nat) (ws : List WorkerId) :
    ∀ m1 : FactoryModel, ((ws.foldl (fun m2 w' =>
        if m2.ids.contains w' then m2.record_performance_percentage w' s' 100.0
        else m2) m1)).ids = m1.ids := by
  induction ws with
  | nil => intro m1; rfl
  | cons w' ws ih =>
      intro m1
      rw [List.foldl_cons, ih]
      split <;> rfl

theorem baseInner_len (s' : Nat) (w : WorkerId) (s : Nat) (ws : List WorkerId) :
    ∀ m1 : FactoryModel,
      (((ws.foldl (fun m2 w' =>
          if m2.ids.contains w' then m2.record_performance_percentage w' s' 100.0
          else m2) m1)).perfs w s).length
        = (m1.perfs w s).length
          + (if w ∈ m1.ids ∧ s = s' then ws.count w else 0) := by
  induction ws with
  | nil => intro m1; simp
  | cons w' ws ih =>
      intro m1
      rw [List.foldl_cons, ih]
      by_cases hc : m1.ids.contains w' = true
      · rw [if_pos hc, record_ids, record_perfs]
        have hw'm : w' ∈ m1.ids := by simpa using hc
        by_cases hw : w = w'
        · subst hw
          by_cases hs : s = s'
          · subst hs
            rw [if_pos ⟨rfl, rfl⟩, if_pos ⟨hw'm, rfl⟩, if_pos ⟨hw'm, rfl⟩,
              List.count_cons_self, List.length_append]
            simp only [List.length_singleton]
            omega
          · rw [if_neg (fun hcon => hs hcon.2)]
            simp only [hs, and_false, if_false]
        · rw [if_neg (fun hcon => hw hcon.1)]
          rw [List.count_cons_of_ne (fun hcon : w = w' => hw hcon)]
      · rw [if_neg hc]
        by_cases hw : w = w'
        · subst hw
          have hnm : w ∉ m1.ids := by
            intro hmem
            exact hc (by simpa using hmem)
          simp only [hnm, false_and, if_false]
        · rw [List.count_cons_of_ne (fun hcon : w = w' => hw hcon)]

theorem basePhase_ids (a : Assignment) (m : FactoryModel) :
    (basePhase a m).ids = m.ids := by
  unfold basePhase
  suffices h : ∀ (ss : List Nat) (m1 : FactoryModel),
      ((ss.foldl (fun m1 s => (a s).foldl (fun m2 w =>
          if m2.ids.contains w then m2.record_performance_percentage w s 100.0
          else m2) m1) m1)).ids = m1.ids by
    exact h stationList m
  intro ss
  induction ss with
  | nil => intro m1; rfl
  | cons s' ss ih =>
      intro m1
      rw [List.foldl_cons, ih, baseInner_ids]

theorem basePhase_len (a : Assignment) (m : FactoryModel) (w : WorkerId) (s : Nat) :
    ((basePhase a m).perfs w s).length
      = (m.perfs w s).length
        + (if w ∈ m.ids then
            (stationList.map (fun s' => if s = s' then (a s').count w else 0)).sum
          else 0) := by
  unfold basePhase
  suffices h : ∀ (ss : List Nat) (m1 : FactoryModel),
      (((ss.foldl (fun m1 s => (a s).foldl (fun m2 w =>
          if m2.ids.contains w then m2.record_performance_percentage w s 100.0
          else m2) m1) m1)).perfs w s).length
        = (m1.perfs w s).length
          + (if w ∈ m1.ids then
              (ss.map (fun s' => if s = s' then (a s').count w else 0)).sum
            else 0) by
    exact h stationList m
  intro ss
  induction ss with
  | nil => intro m1; simp
  | cons s' ss ih =>
      intro m1
      rw [List.foldl_cons, ih, baseInner_ids, baseInner_len]
      by_cases hm : w ∈ m1.ids
      · by_cases hs : s = s'
        · rw [if_pos ⟨hm, hs⟩, if_pos hm, if_pos hm]
          simp only [List.map_cons, List.sum_cons, if_pos hs]
          omega
        · rw [if_neg (fun hcon => hs hcon.2), if_pos hm, if_pos hm]
          simp only [List.map_cons, List.sum_cons, if_neg hs]
          omega
      · rw [if_neg (fun hcon => hm hcon.1), if_neg hm, if_neg hm]

theorem sum_ite_station (ss : List Nat) (s : Nat) (f : Nat → Nat) :
    (ss.map (fun s' => if s = s' then f s' else 0)).sum = ss.count s * f s := by
  induction ss with
  | nil => simp
  | cons s' ss ih =>
      simp only [List.map_cons, List.sum_cons, ih]
      by_cases hs : s = s'
      · subst hs
        rw [if_pos rfl, List.count_cons_self]
        ring
      · rw [if_neg hs, List.count_cons_of_ne hs]
        omega

/-- One rotation recording step preserves the C1 bookkeeping invariants:
the registry is unchanged, per-pair observation counts stay at most 1 (the
skip-if-present guard only records into an empty list), and every pair keeps
at most one recording event. -/
theorem recordStep_inv (w : WorkerId) (I : List WorkerId) (orig : Assignment)
    (bp : Nat → ℝ) (temp : Assignment) (cp : Nat → ℝ) (p : Nat)
    (st : FactoryModel × List RotEvent) (pr : Nat × WorkerId)
    (h : st.1.ids = I ∧ PairCountsLe1 st.1 w ∧ RotRecordedOnce st.1 st.2) :
    (recordStep orig bp temp cp p st pr).1.ids = I ∧
    PairCountsLe1 (recordStep orig bp temp cp p st pr).1 w ∧
    RotRecordedOnce (recordStep orig bp temp cp p st pr).1
      (recordStep orig bp temp cp p st pr).2 := by
  obtain ⟨hids, hle, huniq⟩ := h
  unfold recordStep
  dsimp only
  split
  · exact ⟨hids, hle, huniq⟩
  · rename_i hnd
    have hempty : st.1.perfs pr.2 pr.1 = [] := by
      have hlen : ¬ 0 < (st.1.perfs pr.2 pr.1).length := fun hl =>
        hnd ((has_data_iff_len _ _ _).mpr hl)
      cases hl : st.1.perfs pr.2 pr.1 with
      | nil => rfl
      | cons x xs => exact absurd (by rw [hl]; simp) hlen
    refine ⟨hids, ?_, ?_⟩
    · intro s
      rw [record_perfs]
      split
      · rw [hempty]
        simp
      · exact hle s
    · intro w' s'
      dsimp only
      rw [List.filter_append]
      by_cases hps : pr.2 = w' ∧ pr.1 = s'
      · obtain ⟨hpw, hpst⟩ := hps
        have hc0 : (st.2.filter
            (fun e => decide (e.worker = w' ∧ e.station_id = s'))).length = 0 := by
          by_contra hne
          have h1 := Nat.one_le_iff_ne_zero.mpr hne
          have h2 := (huniq w' s').2 h1
          rw [← hpw, ← hpst] at h2
          exact hnd h2
        constructor
        · rw [List.length_append, hc0]
          simp [hpw, hpst]
        · intro _
          rw [has_data_iff_len, record_perfs, if_pos ⟨hpw.symm, hpst.symm⟩]
          simp
      · have hfs : ∀ (ev : RotEvent), ev.worker = pr.2 → ev.station_id = pr.1 →
            (List.filter (fun e => decide (e.worker = w' ∧ e.station_id = s'))
              [ev]).length = 0 := by
          intro ev hw1 hs1
          simp only [List.filter_cons, List.filter_nil]
          rw [if_neg]
          · rfl
          · simp only [hw1, hs1]
            simpa using hps
        constructor
        · rw [List.length_append, hfs _ rfl rfl]
          simpa using (huniq w' s').1
        · intro h1
          rw [List.length_append, hfs _ rfl rfl] at h1
          simp only [Nat.add_zero] at h1
          have h2 := (huniq w' s').2 h1
          rw [has_data_iff_len, record_perfs,
            if_neg (fun hcon => hps ⟨hcon.1.symm, hcon.2.symm⟩)]
          rw [has_data_iff_len] at h2
          exact h2

/-- One whole rotation preserves the C1 bookkeeping invariants. -/
theorem rotationStep_inv (w : WorkerId) (I : List WorkerId)
    (tws : List TrueWorkerProfile) (tasks : List TaskProfile) (orig : Assignment)
    (bp : Nat → ℝ) (ss : List Nat) (ws : List WorkerId) (p : Nat)
    (st : Assignment × FactoryModel × List RotEvent) (r : Nat)
    (h : st.2.1.ids = I ∧ PairCountsLe1 st.2.1 w ∧ RotRecordedOnce st.2.1 st.2.2) :
    (rotationStep tws tasks orig bp ss ws p st r).2.1.ids = I ∧
    PairCountsLe1 (rotationStep tws tasks orig bp ss ws p st r).2.1 w ∧
    RotRecordedOnce (rotationStep tws tasks orig bp ss ws p st r).2.1
      (rotationStep tws tasks orig bp ss ws p st r).2.2 := by
  unfold rotationStep
  dsimp only
  exact foldl_preserves (fun (s2 : FactoryModel × List RotEvent) =>
      s2.1.ids = I ∧ PairCountsLe1 s2.1 w ∧ RotRecordedOnce s2.1 s2.2)
    _ (fun s2 x hx => recordStep_inv w I _ _ _ _ _ s2 x hx) _ (st.2.1, st.2.2) h

/-- One position round preserves the C1 bookkeeping invariants (the greedy
re-optimization touches only the assignment, never the learned model). -/
theorem positionStep_inv (w : WorkerId) (I : List WorkerId)
    (tws : List TrueWorkerProfile) (tasks : List TaskProfile) (orig : Assignment)
    (bp : Nat → ℝ) (maxw : Nat)
    (st : Assignment × FactoryModel × List RotEvent) (p : Nat)
    (h : st.2.1.ids = I ∧ PairCountsLe1 st.2.1 w ∧ RotRecordedOnce st.2.1 st.2.2) :
    (positionStep tws tasks orig bp maxw st p).2.1.ids = I ∧
    PairCountsLe1 (positionStep tws tasks orig bp maxw st p).2.1 w ∧
    RotRecordedOnce (positionStep tws tasks orig bp maxw st p).2.1
      (positionStep tws tasks orig bp maxw st p).2.2 := by
  unfold positionStep
  dsimp only
  split
  · exact h
  · split
    · exact h
    · have key := foldl_preserves
        (fun (s3 : Assignment × FactoryModel × List RotEvent) =>
          s3.2.1.ids = I ∧ PairCountsLe1 s3.2.1 w ∧ RotRecordedOnce s3.2.1 s3.2.2)
        (rotationStep tws tasks orig bp
          (stationList.filter (fun s => p < (orig s).length))
          ((stationList.filter (fun s => p < (orig s).length)).map
            (fun s => (orig s).getD p ""))
          p)
        (fun s3 r hr => rotationStep_inv w I tws tasks orig bp _ _ p s3 r hr)
        (List.range ((stationList.filter
          (fun s => p < (orig s).length)).map (fun s => (orig s).getD p "")).length)
        (st.1, st.2.1, st.2.2) h
      split
      · exact key
      · exact key

/-- Folding a step that appends exactly one observation for worker `w` at
each visited station, over a duplicate-free station list, adds exactly one
observation at each listed station and none elsewhere. -/
theorem gapInner_len {E : Type _} (w : WorkerId)
    (f : FactoryModel × List E → Nat → FactoryModel × List E)
    (hf : ∀ (st3 : FactoryModel × List E) (ts : Nat) (s' : Nat),
      ((f st3 ts).1.perfs w s').length
        = (st3.1.perfs w s').length + (if s' = ts then 1 else 0)) :
    ∀ (ms : List Nat), ms.Nodup →
      ∀ (st2 : FactoryModel × List E) (s : Nat),
        ((ms.foldl f st2).1.perfs w s).length
          = (st2.1.perfs w s).length + (if s ∈ ms then 1 else 0) := by
  intro ms
  induction ms with
  | nil => intro _ st2 s; simp
  | cons ts ms ih =>
      intro hnd st2 s
      rw [List.foldl_cons, ih (List.Nodup.of_cons hnd) (f st2 ts) s, hf st2 ts s]
      have hts : ts ∉ ms := (List.nodup_cons.mp hnd).1
      by_cases hs : s = ts
      · subst hs
        simp [hts]
      · simp [hs, List.mem_cons]

/-- Processing one incomplete worker fills exactly its missing stations: all
six stations end with exactly one observation (given at most one before), and
the at-most-one bound is preserved everywhere. -/
theorem gapWorker_self (tws : List TrueWorkerProfile) (tasks : List TaskProfile)
    (a : Assignment) (bp : Nat → ℝ) (w : WorkerId)
    (st : FactoryModel × List GapEvent) (hle : PairCountsLe1 st.1 w) :
    (∀ s ∈ stationList, ((gapWorker tws tasks a bp st w).1.perfs w s).length = 1) ∧
    PairCountsLe1 (gapWorker tws tasks a bp st w).1 w := by
  have hstn : stationList.Nodup := by rw [stationList_eq]; decide
  have hkey : ∀ s, ((gapWorker tws tasks a bp st w).1.perfs w s).length
      = (st.1.perfs w s).length
        + (if s ∈ stationList.filter (fun s => !st.1.has_data_for_station w s)
            then 1 else 0) := by
    intro s
    unfold gapWorker
    dsimp only
    rw [gapInner_len]
    · intro st3 ts s'
      dsimp only
      rw [record_perfs]
      by_cases hs : s' = ts
      · subst hs
        rw [if_pos ⟨rfl, rfl⟩, List.length_append]
        simp
      · rw [if_neg (fun hc => hs hc.2), if_neg hs]
        omega
    · exact hstn.filter _
  constructor
  · intro s hs
    rw [hkey s]
    by_cases hd : st.1.has_data_for_station w s = true
    · have hnm : s ∉ stationList.filter (fun s => !st.1.has_data_for_station w s) := by
        intro hmem
        have := List.of_mem_filter hmem
        simp [hd] at this
      rw [if_neg hnm]
      have h1 := (has_data_iff_len _ _ _).mp hd
      have h2 := hle s
      omega
    · have hmem : s ∈ stationList.filter (fun s => !st.1.has_data_for_station w s) :=
        List.mem_filter.mpr ⟨hs, by simp [hd]⟩
      rw [if_pos hmem]
      have h0 : (st.1.perfs w s).length = 0 := by
        by_contra h
        exact hd ((has_data_iff_len _ _ _).mpr (Nat.pos_of_ne_zero h))
      omega
  · intro s
    rw [hkey s]
    by_cases hmem : s ∈ stationList.filter (fun s => !st.1.has_data_for_station w s)
    · rw [if_pos hmem]
      have hd' : ¬ st.1.has_data_for_station w s = true := by
        simpa using List.of_mem_filter hmem
      have h0 : (st.1.perfs w s).length = 0 := by
        by_contra h
        exact hd' ((has_data_iff_len _ _ _).mpr (Nat.pos_of_ne_zero h))
      omega
    · rw [if_neg hmem]
      have := hle s
      omega

/-- Processing a different worker leaves `w`'s observation lists untouched. -/
theorem gapWorker_frame (tws : List TrueWorkerProfile) (tasks : List TaskProfile)
    (a : Assignment) (bp : Nat → ℝ) (w w'' : WorkerId) (hne : w'' ≠ w)
    (st : FactoryModel × List GapEvent) :
    ∀ s, (gapWorker tws tasks a bp st w'').1.perfs w s = st.1.perfs w s := by
  intro s
  unfold gapWorker
  dsimp only
  refine foldl_preserves (fun (st2 : FactoryModel × List GapEvent) =>
    st2.1.perfs w s = st.1.perfs w s) _ ?_ _ (st.1, st.2) rfl
  intro st2 ts h2
  dsimp only
  rw [record_perfs, if_neg (fun hc => hne hc.1.symm)]
  exact h2

theorem gapWorker_ids (tws : List TrueWorkerProfile) (tasks : List TaskProfile)
    (a : Assignment) (bp : Nat → ℝ) (st : FactoryModel × List GapEvent)
    (w'' : WorkerId) :
    (gapWorker tws tasks a bp st w'').1.ids = st.1.ids := by
  unfold gapWorker
  dsimp only
  refine foldl_preserves (fun (st2 : FactoryModel × List GapEvent) =>
    st2.1.ids = st.1.ids) _ ?_ _ (st.1, st.2) rfl
  intro st2 ts h2
  exact h2

/-- The whole gap-filling pass brings worker `w` to exactly one observation
per station, provided `w` is in the processing list or already complete. -/
theorem gap_fold_complete (tws : List TrueWorkerProfile) (tasks : List TaskProfile)
    (a : Assignment) (bp : Nat → ℝ) (w : WorkerId) :
    ∀ (l : List WorkerId) (st : FactoryModel × List GapEvent),
      PairCountsLe1 st.1 w →
      (w ∈ l ∨ ∀ s ∈ stationList, st.1.has_data_for_station w s = true) →
      ∀ s ∈ stationList,
        ((l.foldl (gapWorker tws tasks a bp) st).1.perfs w s).length = 1 := by
  intro l
  induction l with
  | nil =>
      intro st hle hor s hs
      rw [List.foldl_nil]
      rcases hor with h | h
      · exact absurd h (List.not_mem_nil w)
      · have h1 := (has_data_iff_len _ _ _).mp (h s hs)
        have h2 := hle s
        omega
  | cons w'' l ih =>
      intro st hle hor s hs
      rw [List.foldl_cons]
      by_cases hw : w'' = w
      · subst hw
        obtain ⟨hq, hle'⟩ := gapWorker_self tws tasks a bp w'' st hle
        exact ih (gapWorker tws tasks a bp st w'') hle'
          (Or.inr (fun s' hs' => (has_data_iff_len _ _ _).mpr
            (by rw [hq s' hs']; norm_num))) s hs
      · have hle' : PairCountsLe1 (gapWorker tws tasks a bp st w'').1 w := by
          intro s'
          rw [gapWorker_frame tws tasks a bp w w'' hw st s']
          exact hle s'
        have hor' : w ∈ l ∨ ∀ s' ∈ stationList,
            (gapWorker tws tasks a bp st w'').1.has_data_for_station w s' = true := by
          rcases hor with hm | hall
          · rcases List.mem_cons.mp hm with h | h
            · exact absurd h.symm hw
            · exact Or.inl h
          · refine Or.inr (fun s' hs' => ?_)
            rw [has_data_iff_len, gapWorker_frame tws tasks a bp w w'' hw st s']
            exact (has_data_iff_len _ _ _).mp (hall s' hs')
        exact ih _ hle' hor' s hs

theorem completeness_lt_iff (m : FactoryModel) (w : WorkerId) :
    m.get_data_completeness w < 100 ↔
      (stationList.filter (fun s => m.has_data_for_station w s)).length < 6 := by
  unfold FactoryModel.get_data_completeness
  have h6 : ((WSTATION : ℚ)) = 6 := by norm_num [WSTATION]
  rw [h6, div_mul_eq_mul_div, div_lt_iff₀ (by norm_num : (0:ℚ) < 6)]
  constructor
  · intro h
    by_contra hc
    push_neg at hc
    have h2 : (6 : ℚ) ≤ ((stationList.filter
        (fun s => m.has_data_for_station w s)).length : ℚ) := by
      exact_mod_cast hc
    linarith
  · intro h
    have h2 : (((stationList.filter
        (fun s => m.has_data_for_station w s)).length : ℚ)) < 6 := by
      exact_mod_cast h
    linarith

theorem all_has_data_of_not_lt (m : FactoryModel) (w : WorkerId)
    (h : ¬ m.get_data_completeness w < 100) :
    ∀ s ∈ stationList, m.has_data_for_station w s = true := by
  rw [completeness_lt_iff] at h
  push_neg at h
  have hle := List.length_filter_le (fun s => m.has_data_for_station w s) stationList
  have h6 : stationList.length = 6 := by rw [stationList_eq]; rfl
  have heq : stationList.filter (fun s => m.has_data_for_station w s) = stationList :=
    (List.filter_sublist stationList).eq_of_length (by omega)
  intro s hs
  exact List.of_mem_filter (heq ▸ hs)

theorem completeness_eq_100 (m : FactoryModel) (w : WorkerId)
    (h : ∀ s ∈ stationList, m.has_data_for_station w s = true) :
    m.get_data_completeness w = 100 := by
  unfold FactoryModel.get_data_completeness
  rw [List.filter_eq_self.mpr h, stationList_eq]
  norm_num [WSTATION]

/-- At gap-filler entry, a registered worker is either in the processing list
or already complete. -/
theorem gap_entry_or (m : FactoryModel) (I : List WorkerId) (w : WorkerId)
    (hids : m.ids = I) (hw : w ∈ I) :
    w ∈ m.ids.filter (fun x => decide (m.get_data_completeness x < 100)) ∨
    ∀ s ∈ stationList, m.has_data_for_station w s = true := by
  by_cases hc : m.get_data_completeness w < 100
  · exact Or.inl (List.mem_filter.mpr ⟨by rw [hids]; exact hw, by simpa using hc⟩)
  · exact Or.inr (all_has_data_of_not_lt m w hc)

/-- If no registered worker is incomplete, each registered worker has data
for every station. -/
theorem complete_of_empty_filter (m : FactoryModel) (I : List WorkerId) (w : WorkerId)
    (hids : m.ids = I) (hw : w ∈ I)
    (h : (m.ids.filter (fun x => decide (m.get_data_completeness x < 100))).isEmpty
      = true) :
    ∀ s ∈ stationList, m.has_data_for_station w s = true := by
  rw [List.isEmpty_iff] at h
  have h2 := List.filter_eq_nil_iff.mp h w (by rw [hids]; exact hw)
  simp only [decide_eq_true_eq] at h2
  exact all_has_data_of_not_lt m w h2

set_option maxHeartbeats 1600000 in
/-- Claim C1: the rotation phase records at most one observation per
worker-station pair (skip-if-present), and after a full run of
`systematic_data_collection_ui` — base phase, all rotation rounds, and the
gap filler — every factory worker that has a `TrueWorkerProfile`, appears
exactly once in the initial assignment, and starts with no recorded data
holds exactly one observation for each of the six stations, so its data
completeness is 100%. -/
theorem claim_C1_completeness (tws : List TrueWorkerProfile)
    (tasks : List TaskProfile) (initial_assign : Assignment) (m0 : FactoryModel)
    (w : WorkerId)
    (hw : w ∈ m0.ids)
    (hcount : (canonicalOrder initial_assign).count w = 1)
    (hfresh : ∀ s, m0.perfs w s = [])
    (htrue : ∃ tw ∈ tws, tw.worker_id = w) :
    (∀ w' s', (((systematic_data_collection_ui tws tasks initial_assign m0).2.2.1).filter
        (fun e => decide (e.worker = w' ∧ e.station_id = s'))).length ≤ 1) ∧
    (∀ s ∈ stationList,
      (((systematic_data_collection_ui tws tasks initial_assign m0).2.1).perfs w s).length
        = 1) ∧
    ((systematic_data_collection_ui tws tasks initial_assign m0).2.1).get_data_completeness w
      = 100 := by
  have hstn : stationList.Nodup := by rw [stationList_eq]; decide
  have hbase_le : PairCountsLe1 (basePhase initial_assign m0) w := by
    intro s
    have hb := basePhase_len initial_assign m0 w s
    rw [hfresh s] at hb
    simp only [List.length_nil, Nat.zero_add, if_pos hw] at hb
    rw [hb, sum_ite_station]
    by_cases hs : s ∈ stationList
    · rw [List.count_eq_one_of_mem hstn hs, one_mul]
      have hsum : (stationList.map (fun s' => (initial_assign s').count w)).sum = 1 := by
        rw [← canonicalOrder_count]
        exact hcount
      have hmem2 : (initial_assign s).count w
          ∈ stationList.map (fun s' => (initial_assign s').count w) :=
        List.mem_map.mpr ⟨s, hs, rfl⟩
      have := List.single_le_sum (fun x _ => Nat.zero_le x) _ hmem2
      omega
    · rw [List.count_eq_zero.mpr hs, Nat.zero_mul]
      exact Nat.zero_le _
  have hinv := foldl_preserves
    (fun (st : Assignment × FactoryModel × List RotEvent) =>
      st.2.1.ids = m0.ids ∧ PairCountsLe1 st.2.1 w ∧ RotRecordedOnce st.2.1 st.2.2)
    (positionStep tws tasks initial_assign
      (simulate_station_performance tws tasks initial_assign)
      ((stationList.map (fun s => (initial_assign s).length)).foldl max 0))
    (fun st p hp => positionStep_inv w m0.ids tws tasks initial_assign _ _ st p hp)
    (List.range ((stationList.map (fun s => (initial_assign s).length)).foldl max 0))
    (initial_assign, basePhase initial_assign m0, ([] : List RotEvent))
    (by
      refine ⟨basePhase_ids initial_assign m0, hbase_le, fun w' s' => ⟨by simp, ?_⟩⟩
      intro h1
      simp at h1)
  obtain ⟨hids_res, hle_res, huniq_res⟩ := hinv
  unfold systematic_data_collection_ui
  dsimp only
  generalize hR : List.foldl
      (positionStep tws tasks initial_assign
        (simulate_station_performance tws tasks initial_assign)
        ((stationList.map (fun s => (initial_assign s).length)).foldl max 0))
      (initial_assign, basePhase initial_assign m0, ([] : List RotEvent))
      (List.range ((stationList.map (fun s => (initial_assign s).length)).foldl max 0))
      = R at hids_res hle_res huniq_res ⊢
  have hQ : ∀ s ∈ stationList,
      (((if (R.2.1.ids.filter
            (fun w => decide (R.2.1.get_data_completeness w < 100))).isEmpty = true then
          (R.1, R.2.1, R.2.2, ([] : List GapEvent))
        else
          ((collect_incomplete_worker_data_ui tws tasks R.1 R.2.1).1,
            (collect_incomplete_worker_data_ui tws tasks R.1 R.2.1).2.1, R.2.2,
            (collect_incomplete_worker_data_ui tws tasks R.1 R.2.1).2.2)).2.1.perfs w s).length)
        = 1 := by
    intro s hs
    split
    · rename_i hempty2
      dsimp only
      have hall := complete_of_empty_filter _ m0.ids w hids_res hw hempty2
      have h1 := (has_data_iff_len _ _ _).mp (hall s hs)
      have h2 := hle_res s
      omega
    · rename_i hempty2
      unfold collect_incomplete_worker_data_ui
      dsimp only
      split
      · rename_i habs
        exact absurd habs hempty2
      · dsimp only
        exact gap_fold_complete tws tasks R.1
          (simulate_station_performance tws tasks R.1) w _ (R.2.1, []) hle_res
          (gap_entry_or _ m0.ids w hids_res hw) s hs
  refine ⟨?_, hQ, ?_⟩
  · intro w' s'
    split
    · exact (huniq_res w' s').1
    · exact (huniq_res w' s').1
  · exact completeness_eq_100 _ _ (fun s hs =>
      (has_data_iff_len _ _ _).mpr (by rw [hQ s hs]; norm_num))

/-- Witness for C1 on a one-worker factory: worker "0001" with a true
profile, fresh learned data, appearing once in the initial assignment, ends
the run with 100% completeness. -/
theorem claim_C1_completeness_witness :
    ("0001" ∈ ({ ids := ["0001"], perfs := fun _ _ => [] } : FactoryModel).ids) ∧
    (canonicalOrder (create_initial_assignment_sequential ["0001"])).count "0001" = 1 ∧
    ((systematic_data_collection_ui [sampleTrueWorker] []
        (create_initial_assignment_sequential ["0001"])
        { ids := ["0001"], perfs := fun _ _ => [] }).2.1).get_data_completeness "0001"
      = 100 :=
  ⟨by decide, by decide,
    (claim_C1_completeness [sampleTrueWorker] []
      (create_initial_assignment_sequential ["0001"])
      { ids := ["0001"], perfs := fun _ _ => [] } "0001"
      (by decide) (by decide) (fun s => rfl)
      ⟨sampleTrueWorker, List.mem_singleton_self _, rfl⟩).2.2⟩

/-- Witness for C10 at `fatigue_base = 1`, `fatigue_cost = 1`. -/
theorem claim_C10_energy_avg_witness :
    sampleTrueWorker.fatigue_base > -5 ∧ (0 : ℝ) ≤ 1 ∧
    (0 < sampleTrueWorker.calculate_energy_avg 1 ∧
      sampleTrueWorker.calculate_energy_avg 1 ≤ 1) :=
  ⟨by norm_num [sampleTrueWorker], by norm_num,
    (claim_C10_energy_avg sampleTrueWorker 1 (by norm_num [sampleTrueWorker]) (by norm_num)).1⟩

end ADA
